import Mathlib

/-!
# CodeHub (`app.js`): database seeding, authentication routes and snapshot storage

A shallow embedding of `src/app.js`.

* JavaScript strings are sequences of UTF-16 code units (`JSString`), so that
  `JSON.stringify` can be followed code unit by code unit.
* The SQLite database is the content of its four tables plus the three
  `sqlite_sequence` counters kept for the `AUTOINCREMENT` keys.  Rows are listed
  in rowid order.  A rowid is at most `2^63 - 1`, where `AUTOINCREMENT` gives up with
  SQLITE_FULL, and `lastInsertRowid` comes back as a JavaScript number, the nearest double.
* `bcrypt.hashSync`, `bcrypt.compareSync` and `String.prototype.toLowerCase` are
  parameters (`Platform`); the salt `bcrypt` draws and the time `Date` gives are arguments
  of the operation that uses them.
* A handler returns the database, the session of the requesting client and its response.
-/

namespace CodeHub

/-! ## JavaScript strings -/

/-- A JavaScript string value: its UTF-16 code units, in order. -/
abbrev JSString := List Nat

/-- UTF-16 encoding of one Unicode scalar value. -/
def utf16Char (c : Char) : List Nat :=
  if c.toNat < 0x10000 then [c.toNat]
  else [0xD800 + (c.toNat - 0x10000) / 0x400, 0xDC00 + (c.toNat - 0x10000) % 0x400]

/-- The JavaScript string denoted by a source literal. -/
def utf16 (s : String) : JSString :=
  s.data.flatMap utf16Char

/-- A leading (high) surrogate code unit. -/
def isLeadSurrogate (c : Nat) : Bool := 0xD800 ≤ c && c ≤ 0xDBFF

/-- A trailing (low) surrogate code unit. -/
def isTrailSurrogate (c : Nat) : Bool := 0xDC00 ≤ c && c ≤ 0xDFFF

/-- Lower-case hexadecimal digit of a value below 16. -/
def hexDigit (d : Nat) : Nat :=
  if d < 10 then 0x30 + d else 0x61 + (d - 10)

/-- ECMAScript `UnicodeEscape`: a backslash, `u` and four lower-case hexadecimal digits. -/
def unicodeEscape (c : Nat) : List Nat :=
  [0x5C, 0x75, hexDigit (c / 4096 % 16), hexDigit (c / 256 % 16),
    hexDigit (c / 16 % 16), hexDigit (c % 16)]

/-- One code point of ECMAScript `QuoteJSONString` that is a single code unit:
the two-character escapes of the table, `UnicodeEscape` for the other control
characters and for a surrogate that has no partner, the code unit itself otherwise. -/
def quoteUnit (c : Nat) : List Nat :=
  if c = 0x08 then [0x5C, 0x62]
  else if c = 0x09 then [0x5C, 0x74]
  else if c = 0x0A then [0x5C, 0x6E]
  else if c = 0x0C then [0x5C, 0x66]
  else if c = 0x0D then [0x5C, 0x72]
  else if c = 0x22 then [0x5C, 0x22]
  else if c = 0x5C then [0x5C, 0x5C]
  else if c < 0x20 || isLeadSurrogate c || isTrailSurrogate c then unicodeEscape c
  else [c]

/-- The body of `QuoteJSONString`: the string is read code point by code point,
a leading surrogate directly followed by a trailing one being one code point,
which is copied as its two code units. -/
def quoteBody : List Nat → List Nat
  | [] => []
  | [c] => quoteUnit c
  | c :: d :: rest =>
    if isLeadSurrogate c && isTrailSurrogate d then c :: d :: quoteBody rest
    else quoteUnit c ++ quoteBody (d :: rest)

/-- ECMAScript `QuoteJSONString`. -/
def quoteJSONString (s : JSString) : List Nat :=
  0x22 :: (quoteBody s ++ [0x22])

/-! ## Snapshots and their JSON text -/

/-- A snapshot as the program holds it: a plain JavaScript object whose own
properties map a path to a text; the list gives the properties in the order in
which the object enumerates them. -/
abbrev Snapshot := List (JSString × JSString)

/-- The members of `SerializeJSONObject`, each `key:value` with no gap, separated by commas. -/
def serializeMembers : Snapshot → List Nat
  | [] => []
  | [(k, v)] => quoteJSONString k ++ 0x3A :: quoteJSONString v
  | (k, v) :: m :: rest =>
    quoteJSONString k ++ 0x3A :: quoteJSONString v ++ 0x2C :: serializeMembers (m :: rest)

namespace JSON

/-- The call `JSON.stringify(snapshot)` of `initDB` (no replacer, no indentation)
on an object whose property values are strings. -/
def stringify (s : Snapshot) : JSString :=
  0x7B :: (serializeMembers s ++ [0x7D])

end JSON

/-- JSON white space: tab, line feed, carriage return, space. -/
def isJSONWhiteSpace (c : Nat) : Bool :=
  c = 0x09 || c = 0x0A || c = 0x0D || c = 0x20

/-- Skip JSON white space. -/
def skipWs : List Nat → List Nat
  | [] => []
  | c :: rest => if isJSONWhiteSpace c then skipWs rest else c :: rest

/-- Value of a hexadecimal digit, either case. -/
def hexValue (c : Nat) : Option Nat :=
  if 0x30 ≤ c ∧ c ≤ 0x39 then some (c - 0x30)
  else if 0x61 ≤ c ∧ c ≤ 0x66 then some (c - 0x61 + 10)
  else if 0x41 ≤ c ∧ c ≤ 0x46 then some (c - 0x41 + 10)
  else none

/-- The code unit written by the four hexadecimal digits of a `\u` escape. -/
def hex4 (a b c d : Nat) : Option Nat :=
  match hexValue a, hexValue b, hexValue c, hexValue d with
  | some x, some y, some z, some w => some (x * 4096 + y * 256 + z * 16 + w)
  | _, _, _, _ => none

/-- The code unit denoted by the character after a backslash (other than `u`). -/
def simpleEscape (e : Nat) : Option Nat :=
  if e = 0x22 then some 0x22
  else if e = 0x5C then some 0x5C
  else if e = 0x2F then some 0x2F
  else if e = 0x62 then some 0x08
  else if e = 0x66 then some 0x0C
  else if e = 0x6E then some 0x0A
  else if e = 0x72 then some 0x0D
  else if e = 0x74 then some 0x09
  else none

/-- Put a code unit in front of the string of a parse result. -/
def consResult (u : Nat) : Option (JSString × List Nat) → Option (JSString × List Nat)
  | some (s, r) => some (u :: s, r)
  | none => none

/-- The characters of a JSON string after its opening quote, up to and including the
closing quote: the string value and the text that follows.  An unescaped control
character, an unknown escape or a missing closing quote is a syntax error. -/
def parseStringBody : List Nat → Option (JSString × List Nat)
  | [] => none
  | c :: rest =>
    if c = 0x22 then some ([], rest)
    else if c = 0x5C then
      match rest with
      | [] => none
      | e :: rest1 =>
        if e = 0x75 then
          match rest1 with
          | h1 :: h2 :: h3 :: h4 :: rest2 =>
            match hex4 h1 h2 h3 h4 with
            | some u => consResult u (parseStringBody rest2)
            | none => none
          | _ => none
        else
          match simpleEscape e with
          | some u => consResult u (parseStringBody rest1)
          | none => none
    else if c < 0x20 then none
    else consResult c (parseStringBody rest)

/-- Consume one given character. -/
def expect (c : Nat) : List Nat → Option (List Nat)
  | [] => none
  | d :: rest => if d = c then some rest else none

/-- A JSON string token. -/
def parseString (text : List Nat) : Option (JSString × List Nat) :=
  match expect 0x22 text with
  | some t => parseStringBody t
  | none => none

/-- `CreateDataProperty` on the object under construction: a key already present keeps
its place and takes the new value, a new key is added last. -/
def setProperty (k v : JSString) : Snapshot → Snapshot
  | [] => [(k, v)]
  | (k1, v1) :: rest => if k1 = k then (k, v) :: rest else (k1, v1) :: setProperty k v rest

/-- One member `key : value` whose value is a string, with the white space around its tokens. -/
def parseMember (text : List Nat) : Option ((JSString × JSString) × List Nat) :=
  match parseString (skipWs text) with
  | none => none
  | some (k, t1) =>
    match expect 0x3A (skipWs t1) with
    | none => none
    | some t2 =>
      match parseString (skipWs t2) with
      | none => none
      | some (v, t3) => some ((k, v), skipWs t3)

/-- The members of an object after its opening brace, up to and including the closing brace.
The first argument bounds the number of members read. -/
def parseMembers : Nat → List Nat → Snapshot → Option (Snapshot × List Nat)
  | 0, _, _ => none
  | fuel + 1, text, acc =>
    match parseMember text with
    | none => none
    | some ((k, v), t) =>
      match t with
      | [] => none
      | c :: rest =>
        if c = 0x2C then parseMembers fuel rest (setProperty k v acc)
        else if c = 0x7D then some (setProperty k v acc, rest)
        else none

/-- The text after the closing brace must be white space only. -/
def parseEnd (r : Snapshot × List Nat) : Option Snapshot :=
  match skipWs r.2 with
  | [] => some r.1
  | _ :: _ => none

namespace JSON

/-- Modelled from the spec: the `deserialize` of the round-trip requirement of section 6;
the routes that read `commits.snapshot` are not part of `app.js`.  It is the ECMAScript
`JSON.parse` restricted to the texts that denote a snapshot, an object all of whose members
are strings; any other text, valid JSON or not, gives `none`. -/
def parse (text : JSString) : Option Snapshot :=
  match expect 0x7B (skipWs text) with
  | none => none
  | some t =>
    match skipWs t with
    | [] => none
    | c :: rest =>
      if c = 0x7D then parseEnd ([], rest)
      else
        match parseMembers text.length (c :: rest) [] with
        | none => none
        | some r => parseEnd r

end JSON

/-! ## The database -/

/-- A row of `users`. -/
structure User where
  id : Nat
  username : String
  email : String
  password_hash : String
deriving DecidableEq, Repr

/-- A row of `repos`.  The three columns declared without `NOT NULL` may hold NULL,
here `none`. -/
structure Repo where
  id : Nat
  owner_id : Nat
  name : String
  description : Option String
  is_private : Option Int
  stars_count : Option Int
  created_at : String
  updated_at : String
deriving DecidableEq, Repr

/-- A row of `stars`. -/
structure Star where
  user_id : Nat
  repo_id : Nat
deriving DecidableEq, Repr

/-- A row of `commits`; `snapshot` is the stored JSON text. -/
structure Commit where
  id : Nat
  repo_id : Nat
  author_id : Nat
  message : String
  created_at : String
  snapshot : JSString
deriving DecidableEq, Repr

/-- The content of `data.db` once the `CREATE TABLE IF NOT EXISTS` statements of `initDB`
have run: the rows of the four tables in rowid order and, for each `AUTOINCREMENT` key,
the largest id handed out so far (`sqlite_sequence`). -/
structure DB where
  users : List User
  repos : List Repo
  stars : List Star
  commits : List Commit
  seq_users : Nat
  seq_repos : Nat
  seq_commits : Nat
deriving DecidableEq, Repr

/-- The database of a fresh `data.db`: the four tables exist and hold no row. -/
def DB.empty : DB :=
  { users := [], repos := [], stars := [], commits := [],
    seq_users := 0, seq_repos := 0, seq_commits := 0 }

/-- An exception raised inside the program. -/
inductive Exn where
  | uniqueConstraint (what : String)
  | foreignKeyConstraint (table : String)
  | databaseFull
  | bcryptArguments
deriving DecidableEq, Repr

/-- The largest of a list of ids, 0 for none. -/
def maxId : List Nat → Nat
  | [] => 0
  | i :: rest => max i (maxId rest)

/-- The largest rowid of SQLite, `2^63 - 1`. -/
def maxRowid : Nat := 2 ^ 63 - 1

/-- The id an `INTEGER PRIMARY KEY AUTOINCREMENT` column gives a new row: one more than
the largest id the table holds or has ever handed out, and SQLITE_FULL when that is the
largest rowid. -/
def nextId (seq : Nat) (ids : List Nat) : Except Exn Nat :=
  if max seq (maxId ids) < maxRowid then .ok (max seq (maxId ids) + 1)
  else .error .databaseFull

/-- The JavaScript number `better-sqlite3` returns as `info.lastInsertRowid` for a rowid:
the nearest double, ties to the even mantissa.  Every id up to `2^53` is its own number;
above, `e` low bits are rounded away. -/
def toNumber (n : Nat) : Nat :=
  if n ≤ 2 ^ 53 then n
  else
    let e := Nat.log2 n - 52
    let q := n / 2 ^ e
    let r := n % 2 ^ e
    if 2 * r < 2 ^ e then q * 2 ^ e
    else if 2 ^ e < 2 * r then (q + 1) * 2 ^ e
    else if q % 2 = 0 then q * 2 ^ e
    else (q + 1) * 2 ^ e

/-- The statement `INSERT INTO users(username, email, password_hash) VALUES(?,?,?)`:
the new database and `info.lastInsertRowid`, or SQLITE_FULL, or the violation of
`username TEXT UNIQUE` or `email TEXT UNIQUE`. -/
def insertUser (db : DB) (username email password_hash : String) : Except Exn (DB × Nat) :=
  match nextId db.seq_users (db.users.map (·.id)) with
  | .error e => .error e
  | .ok id =>
    if db.users.any (fun u => u.username = username) then
      .error (.uniqueConstraint "users.username")
    else if db.users.any (fun u => u.email = email) then
      .error (.uniqueConstraint "users.email")
    else
      .ok ({ db with
              users := db.users ++ [{ id := id, username := username, email := email,
                                      password_hash := password_hash }],
              seq_users := id }, toNumber id)

/-- The statement `INSERT INTO repos(owner_id, name, description, is_private, stars_count,
created_at, updated_at) VALUES(?,?,?,?,?,?,?)`, checked against `UNIQUE(owner_id, name)`
and `FOREIGN KEY(owner_id) REFERENCES users(id)`. -/
def insertRepo (db : DB) (owner_id : Nat) (name description : String)
    (is_private stars_count : Int) (created_at updated_at : String) : Except Exn (DB × Nat) :=
  match nextId db.seq_repos (db.repos.map (·.id)) with
  | .error e => .error e
  | .ok id =>
    if db.repos.any (fun r => r.owner_id = owner_id ∧ r.name = name) then
      .error (.uniqueConstraint "repos.owner_id, repos.name")
    else if ¬ db.users.any (fun u => u.id = owner_id) then
      .error (.foreignKeyConstraint "repos")
    else
      .ok ({ db with
              repos := db.repos ++ [{ id := id, owner_id := owner_id, name := name,
                                      description := some description,
                                      is_private := some is_private,
                                      stars_count := some stars_count,
                                      created_at := created_at,
                                      updated_at := updated_at }],
              seq_repos := id }, toNumber id)

/-- The statement `INSERT INTO commits(repo_id, author_id, message, created_at, snapshot)
VALUES(?,?,?,?,?)`, checked against the two foreign keys of `commits`. -/
def insertCommit (db : DB) (repo_id author_id : Nat) (message created_at : String)
    (snapshot : JSString) : Except Exn (DB × Nat) :=
  match nextId db.seq_commits (db.commits.map (·.id)) with
  | .error e => .error e
  | .ok id =>
    if ¬ db.repos.any (fun r => r.id = repo_id) then
      .error (.foreignKeyConstraint "commits")
    else if ¬ db.users.any (fun u => u.id = author_id) then
      .error (.foreignKeyConstraint "commits")
    else
      .ok ({ db with
              commits := db.commits ++ [{ id := id, repo_id := repo_id,
                                          author_id := author_id,
                                          message := message, created_at := created_at,
                                          snapshot := snapshot }],
              seq_commits := id }, toNumber id)

/-- What the program takes from its platform: `bcrypt.hashSync(data, 10)`, which draws a
salt, given here as its second argument; `bcrypt.compareSync(data, hash)` on two strings;
and `String.prototype.toLowerCase`. -/
structure Platform where
  hashSync : String → String → String
  compareSync : String → String → Bool
  toLowerCase : String → String

/-- What `bcrypt` promises of its two functions: a hash verifies against the data it was
made from, whatever the salt. -/
def Platform.Sound (P : Platform) : Prop :=
  ∀ data salt, P.compareSync data (P.hashSync data salt) = true

/-- The object literal `initialSnapshot` of `initDB`. -/
def initialSnapshot : Snapshot :=
  [(utf16 "README.md", utf16 "# Hello CodeHub\n\nThis is a sample repository.\n")]

/-- The function `initDB`: the database it leaves and the exception it stopped on, if any.
`salt` is the salt `bcrypt.hashSync` draws and `now` is `new Date().toISOString()`.
Each `run` is its own transaction, so the rows written before an exception stay.
`owner_id` and `repo.lastInsertRowid` are the JavaScript numbers the inserts return. -/
def initDB (P : Platform) (salt now : String) (db : DB) : DB × Option Exn :=
  let userCount := db.users.length
  if userCount = 0 then
    let pwd := P.hashSync "password123" salt
    match insertUser db "alex" "alex@example.com" pwd with
    | .error e => (db, some e)
    | .ok (db1, owner_id) =>
      match insertRepo db1 owner_id "hello-world" "My first CodeHub repo" 0 3 now now with
      | .error e => (db1, some e)
      | .ok (db2, repo_id) =>
        match insertCommit db2 repo_id owner_id "Initial commit" now
            (JSON.stringify initialSnapshot) with
        | .error e => (db2, some e)
        | .ok (db3, _) => (db3, none)
  else (db, none)

/-! ## Requests, sessions and responses -/

/-- The value of `req.session.user`: absent, or the `users` row stored at login. -/
abbrev Session := Option User

/-- The fields `POST /login` reads from `req.body`.  A field the request does not carry
is `undefined`, here `none`; a field it carries is a string, as a form post sends it.
Requests whose fields are of another type (a JSON body can carry numbers, null, arrays and
objects) are not described by this type. -/
structure LoginBody where
  username : Option String
  password : Option String
deriving DecidableEq, Repr

/-- The fields `POST /register` reads from `req.body`, each absent or a string.  With a field
of another type the handler inserts nothing: `trim` or `bcrypt.hashSync` throws inside the
`try`, and the `catch` renders the page with its error. -/
structure RegisterBody where
  username : Option String
  email : Option String
  password : Option String
deriving DecidableEq, Repr

/-- A row of the home page query: `repos.*` and the owner's `users.username`. -/
structure HomeRow where
  repo : Repo
  username : String
deriving DecidableEq, Repr

/-- The local variables handed to a view. -/
structure Locals where
  user : Option User := none
  error : Option String := none
  next : Option String := none
  title : Option String := none
  repos : List HomeRow := []
deriving DecidableEq, Repr

/-- How a handler answers: a rendered view, a redirect, or an exception that leaves the
handler, which Express answers with status 500. -/
inductive Response where
  | render (view : String) (locals : Locals)
  | redirect (location : String)
  | uncaught (e : Exn)
deriving DecidableEq, Repr

/-- What a handler leaves behind. -/
structure Outcome where
  db : DB
  session : Session
  response : Response
deriving DecidableEq, Repr

/-- The code points `String.prototype.trim` strips: ECMAScript WhiteSpace and LineTerminator. -/
def isJSTrimmed (c : Char) : Bool :=
  let n := c.toNat
  n = 0x09 || n = 0x0A || n = 0x0B || n = 0x0C || n = 0x0D || n = 0x20 || n = 0xA0
    || n = 0x1680 || (0x2000 ≤ n && n ≤ 0x200A) || n = 0x2028 || n = 0x2029
    || n = 0x202F || n = 0x205F || n = 0x3000 || n = 0xFEFF

/-- `String.prototype.trim`. -/
def jsTrim (s : String) : String :=
  String.mk ((s.data.dropWhile isJSTrimmed).reverse.dropWhile isJSTrimmed).reverse

/-- The order of SQLite on a nullable integer column: NULL sorts before every number. -/
def sqlLt : Option Int → Option Int → Bool
  | none, some _ => true
  | some x, some y => x < y
  | _, none => false

/-- The order of the home page query, `ORDER BY stars_count DESC, updated_at DESC`. -/
def homeOrder (a b : HomeRow) : Bool :=
  sqlLt b.repo.stars_count a.repo.stars_count
    || (a.repo.stars_count = b.repo.stars_count && a.repo.updated_at ≥ b.repo.updated_at)

/-- The query of `GET /`: `repos JOIN users ON users.id = repos.owner_id`, ordered, at most
twelve rows. -/
def homeRepos (db : DB) : List HomeRow :=
  ((db.repos.flatMap fun r =>
      (db.users.filter fun u => u.id = r.owner_id).map fun u =>
        ({ repo := r, username := u.username } : HomeRow)).mergeSort homeOrder).take 12

/-- The handler of `GET /`. -/
def getHome (db : DB) (session : Session) : Outcome :=
  { db := db, session := session,
    response := .render "home" { repos := homeRepos db, user := session, title := "CodeHub" } }

/-- The handler of `GET /login`. -/
def getLogin (db : DB) (session : Session) : Outcome :=
  { db := db, session := session,
    response := .render "auth_login" { user := session, next := "/", title := "Login" } }

/-- The handler of `GET /register`. -/
def getRegister (db : DB) (session : Session) : Outcome :=
  { db := db, session := session,
    response := .render "auth_register" { user := session, title := "Register" } }

/-- The query `SELECT * FROM users WHERE username = ? OR email = ?` with `get(x, x)`, which
gives the first row of the result or `undefined`.  SQLite answers the two terms of the `OR`
one after the other, each from the index of its `UNIQUE` column: first the row whose
username is `x`, then the row whose email is `x`.  An `undefined` argument is bound as NULL,
which equals nothing. -/
def selectUserByLogin (db : DB) (x : Option String) : Option User :=
  match x with
  | none => none
  | some name =>
    match db.users.find? (fun u => u.username = name) with
    | some user => some user
    | none => db.users.find? (fun u => u.email = name)

/-- The call `bcrypt.compareSync(data, hash)` with the `password` field as `data`.  The
function of the `bcrypt` package starts with
`if (data == null || hash == null) throw new Error('data and hash arguments required')`,
so it throws when the field is `undefined`. -/
def compareSyncField (P : Platform) (data : Option String) (hash : String) : Except Exn Bool :=
  match data with
  | none => .error .bcryptArguments
  | some d => .ok (P.compareSync d hash)

/-- The login page with the error of a refused login. -/
def invalidCredentials : Response :=
  .render "auth_login" { user := none, error := "Invalid credentials", next := "/", title := "Login" }

/-- The handler of `POST /login`. -/
def postLogin (P : Platform) (db : DB) (session : Session) (body : LoginBody) : Outcome :=
  match selectUserByLogin db body.username with
  | none => { db := db, session := session, response := invalidCredentials }
  | some user =>
    match compareSyncField P body.password user.password_hash with
    | .error e => { db := db, session := session, response := .uncaught e }
    | .ok false => { db := db, session := session, response := invalidCredentials }
    | .ok true => { db := db, session := some user, response := .redirect "/" }

/-- JavaScript `!field` for a field that is `undefined` or a string. -/
def isFalsy (field : Option String) : Bool :=
  match field with
  | none => true
  | some s => s = ""

/-- The query `SELECT * FROM users WHERE id = ?` with a JavaScript number as argument. -/
def selectUserById (db : DB) (id : Nat) : Option User :=
  db.users.find? (fun u => u.id = id)

/-- The handler of `POST /register`; `salt` is the salt `bcrypt.hashSync` draws. -/
def postRegister (P : Platform) (salt : String) (db : DB) (session : Session)
    (body : RegisterBody) : Outcome :=
  if isFalsy body.username || isFalsy body.email || isFalsy body.password then
    { db := db, session := session,
      response := .render "auth_register" { error := "All fields required", user := none } }
  else
    match body.username, body.email, body.password with
    | some username, some email, some password =>
      let hash := P.hashSync password salt
      match insertUser db (jsTrim username) (P.toLowerCase (jsTrim email)) hash with
      | .ok (db1, lastInsertRowid) =>
        { db := db1, session := selectUserById db1 lastInsertRowid, response := .redirect "/" }
      | .error _ =>
        { db := db, session := session,
          response := .render "auth_register"
            { error := "Username or email already in use", user := none } }
    | _, _, _ =>
      { db := db, session := session,
        response := .render "auth_register" { error := "All fields required", user := none } }

/-- The handler of `POST /logout`: the session is destroyed. -/
def postLogout (db : DB) (_session : Session) : Outcome :=
  { db := db, session := none, response := .redirect "/" }

/-! ## The program as a transition system -/

/-- The operations of the program: the start-up call of `initDB` and one request to each route. -/
inductive Op where
  | initDB (salt now : String)
  | getHome
  | getLogin
  | postLogin (body : LoginBody)
  | getRegister
  | postRegister (salt : String) (body : RegisterBody)
  | postLogout
deriving DecidableEq, Repr

/-- The database and the session of the requesting client after an operation. -/
def step (P : Platform) (op : Op) (db : DB) (session : Session) : DB × Session :=
  match op with
  | .initDB salt now => ((initDB P salt now db).1, session)
  | .getHome => ((getHome db session).db, (getHome db session).session)
  | .getLogin => ((getLogin db session).db, (getLogin db session).session)
  | .postLogin body => ((postLogin P db session body).db, (postLogin P db session body).session)
  | .getRegister => ((getRegister db session).db, (getRegister db session).session)
  | .postRegister salt body =>
    ((postRegister P salt db session body).db, (postRegister P salt db session body).session)
  | .postLogout => ((postLogout db session).db, (postLogout db session).session)

/-- The databases the program reaches from a fresh one; each operation may come from any
client, whatever its session. -/
inductive Reachable (P : Platform) : DB → Prop where
  | fresh : Reachable P DB.empty
  | step (op : Op) (session : Session) {db : DB} :
      Reachable P db → Reachable P (step P op db session).1

/-- No repository is without a commit. -/
def EveryRepoHasCommit (db : DB) : Prop :=
  ∀ r ∈ db.repos, ∃ c ∈ db.commits, c.repo_id = r.id

/-- The pair `(owner_id, name)` identifies a row of `repos`. -/
def OwnerNameUnique (db : DB) : Prop :=
  db.repos.Pairwise fun a b => ¬ (a.owner_id = b.owner_id ∧ a.name = b.name)

/-- The invariant behind the seeding policy: a database without users is the fresh one, and
every repository has a commit. -/
def SeedInvariant (db : DB) : Prop :=
  (db.users = [] → db = DB.empty) ∧ EveryRepoHasCommit db

/-- What `initDB` is to do on a database without users: `after` has exactly one repository
and exactly one commit more than `before`; the commit references that repository and is
authored by its owner, a user of `after`; and the stored snapshot is the JSON text of the
mapping with the one path `README.md`. -/
def SeedsOneRepository (before after : DB) : Prop :=
  ∃ r c, after.repos = before.repos ++ [r]
    ∧ after.commits = before.commits ++ [c]
    ∧ c.repo_id = r.id
    ∧ c.author_id = r.owner_id
    ∧ (∃ u ∈ after.users, u.id = r.owner_id)
    ∧ c.snapshot = JSON.stringify initialSnapshot
    ∧ JSON.parse c.snapshot = some initialSnapshot
    ∧ initialSnapshot.map Prod.fst = [utf16 "README.md"]

/-- The largest id the `repos` table holds or has handed out. -/
def lastRepoId (db : DB) : Nat :=
  max db.seq_repos (maxId (db.repos.map (·.id)))

/-- The largest id the `commits` table holds or has handed out. -/
def lastCommitId (db : DB) : Nat :=
  max db.seq_commits (maxId (db.commits.map (·.id)))

/-- The states without users on which the three inserts of `initDB` go through as written:
no sequence has reached the largest rowid; the ids of the new user and of the new repository
are JavaScript numbers as they stand; and no row of `repos` holds the pair of the new user's
id and the name `hello-world`. -/
def CanSeed (db : DB) : Prop :=
  db.seq_users < maxRowid
    ∧ toNumber (db.seq_users + 1) = db.seq_users + 1
    ∧ (∀ r ∈ db.repos, ¬ (r.owner_id = db.seq_users + 1 ∧ r.name = "hello-world"))
    ∧ lastRepoId db < maxRowid
    ∧ toNumber (lastRepoId db + 1) = lastRepoId db + 1
    ∧ lastCommitId db < maxRowid

/-! ## Concrete inputs of the examples -/

/-- A platform for the examples: the hash of a password is the password, and lower-casing
leaves a string as it is, which is what it does to the strings of the examples. -/
def toyPlatform : Platform :=
  { hashSync := fun data _ => data,
    compareSync := fun data hash => decide (data = hash),
    toLowerCase := fun s => s }

/-- The database after the start-up call of `initDB` on a fresh file. -/
def seededDB : DB :=
  (initDB toyPlatform "salt0" "2024-01-01T00:00:00.000Z" DB.empty).1

/-- The seeded database after a first registration, of a user whose username has the form of
an e-mail address. -/
def crowdedDB : DB :=
  (postRegister toyPlatform "salt1" seededDB none
    { username := some "eve@example.com", email := some "bob@example.com",
      password := some "hunter2" }).db

/-- A database without users that still holds two repositories of former users, one of them
of the owner id the next user receives. -/
def staleDB : DB :=
  { users := [],
    repos := [{ id := 4, owner_id := 7, name := "other", description := none,
                is_private := none, stars_count := none,
                created_at := "2023-05-01T00:00:00.000Z",
                updated_at := "2023-05-01T00:00:00.000Z" },
              { id := 9, owner_id := 1, name := "notes", description := none,
                is_private := none, stars_count := none,
                created_at := "2023-06-01T00:00:00.000Z",
                updated_at := "2023-06-01T00:00:00.000Z" }],
    stars := [], commits := [],
    seq_users := 0, seq_repos := 9, seq_commits := 0 }

/-- A database without users that holds a repository `hello-world` of owner id 1. -/
def collidingDB : DB :=
  { users := [],
    repos := [{ id := 1, owner_id := 1, name := "hello-world", description := none,
                is_private := none, stars_count := none,
                created_at := "2023-05-01T00:00:00.000Z",
                updated_at := "2023-05-01T00:00:00.000Z" }],
    stars := [], commits := [],
    seq_users := 0, seq_repos := 1, seq_commits := 0 }

/-- A snapshot of two files; the second content holds a quote, a backslash, a control
character and a surrogate without its partner. -/
def exampleSnapshot : Snapshot :=
  [(utf16 "README.md", utf16 "# Hello CodeHub\n\nThis is a sample repository.\n"),
   (utf16 "src/a.txt", [0x22, 0x5C, 0x01, 0xD800, 0x41])]

/-! ## The version-history core of the specification

`app.js` imports the `diff` package and stores one snapshot per commit, but the routes that
compute diffs and create further commits are not part of it.  The definitions of this section
follow sections 4.1, 4.2 and 4.4 of the specification. -/

/-- Modelled from the spec: the line-split representation of a text (section 4.2); `app.js`
never calls the differ it imports.  A line keeps its line feed, so that the lines of a text,
concatenated, are the text. -/
def splitLines : JSString → List JSString
  | [] => []
  | c :: rest =>
    if c = 0x0A then [c] :: splitLines rest
    else
      match splitLines rest with
      | [] => [[c]]
      | l :: ls => (c :: l) :: ls

/-- Modelled from the spec: binary content is content containing a null byte (section 4.2);
text is content that is not binary. -/
def isBinary (content : JSString) : Bool :=
  content.any (fun c => c = 0)

/-- Modelled from the spec: the operations of an edit script (section 4.2), with the
`Replace` pseudo-operation of binary content. -/
inductive EditOp where
  | Equal (lines : List JSString)
  | Insert (lines : List JSString)
  | Delete (lines : List JSString)
  | Replace (wholeOld wholeNew : JSString)
deriving DecidableEq, Repr

/-- Modelled from the spec: what the line alignment of section 4.2 does with one line of the
two texts: keep it (a common line), delete it (a line of the old text) or insert it (a line of
the new text). -/
inductive LineOp where
  | keep (line : JSString)
  | delete (line : JSString)
  | insert (line : JSString)
deriving DecidableEq, Repr

/-- Modelled from the spec: the length of a longest common subsequence of two line
sequences, by the recurrence of the dynamic programme (section 4.2). -/
def lcsLength : List JSString → List JSString → Nat
  | [], _ => 0
  | _ :: _, [] => 0
  | x :: xs, y :: ys =>
    if x = y then lcsLength xs ys + 1
    else max (lcsLength xs (y :: ys)) (lcsLength (x :: xs) ys)
termination_by xs ys => xs.length + ys.length

/-- Modelled from the spec: the alignment along a longest common subsequence (section 4.2).
Where deleting and inserting leave common subsequences of the same length, the deletion
comes first. -/
def alignLines : List JSString → List JSString → List LineOp
  | [], ys => ys.map .insert
  | x :: xs, [] => (x :: xs).map .delete
  | x :: xs, y :: ys =>
    if x = y then .keep x :: alignLines xs ys
    else if lcsLength (x :: xs) ys ≤ lcsLength xs (y :: ys) then
      .delete x :: alignLines xs (y :: ys)
    else .insert y :: alignLines (x :: xs) ys
termination_by xs ys => xs.length + ys.length

/-- Modelled from the spec: the runs of section 4.2 hold consecutive lines of one kind; this
adds one line operation in front of a script, joining the run it continues. -/
def pushLineOp (op : LineOp) (script : List EditOp) : List EditOp :=
  match op, script with
  | .keep l, .Equal ls :: rest => .Equal (l :: ls) :: rest
  | .delete l, .Delete ls :: rest => .Delete (l :: ls) :: rest
  | .insert l, .Insert ls :: rest => .Insert (l :: ls) :: rest
  | .keep l, rest => .Equal [l] :: rest
  | .delete l, rest => .Delete [l] :: rest
  | .insert l, rest => .Insert [l] :: rest

/-- Modelled from the spec: the runs (section 4.2) of a sequence of line operations. -/
def groupRuns (ops : List LineOp) : List EditOp :=
  ops.foldr pushLineOp []

/-- Modelled from the spec: `diffLines(oldText, newText)` (section 4.2). -/
def diffLines (oldText newText : JSString) : List EditOp :=
  if isBinary oldText || isBinary newText then [.Replace oldText newText]
  else groupRuns (alignLines (splitLines oldText) (splitLines newText))

/-- Modelled from the spec: the lines an operation contributes when Equal and Insert runs are
kept (section 4.2); `Replace` is neither. -/
def EditOp.keptNew : EditOp → List JSString
  | .Equal ls => ls
  | .Insert ls => ls
  | .Delete _ => []
  | .Replace _ _ => []

/-- Modelled from the spec: the lines an operation contributes when Equal and Delete runs are
kept (section 4.2); `Replace` is neither. -/
def EditOp.keptOld : EditOp → List JSString
  | .Equal ls => ls
  | .Delete ls => ls
  | .Insert _ => []
  | .Replace _ _ => []

/-- Modelled from the spec: the text read off a script by keeping its Equal and Insert runs,
concatenated in order (sections 4.2 and 8). -/
def keepEqualInsert (script : List EditOp) : JSString :=
  (script.flatMap EditOp.keptNew).flatten

/-- Modelled from the spec: the text read off a script by keeping its Equal and Delete runs,
concatenated in order (sections 4.2 and 8). -/
def keepEqualDelete (script : List EditOp) : JSString :=
  (script.flatMap EditOp.keptOld).flatten

/-- Modelled from the spec: the error kinds of the core (section 7). -/
inductive CoreError where
  | InvalidPath
  | RevisionNotFound
  | EmptyCommit
  | EmptyHistory
deriving DecidableEq, Repr

/-- Modelled from the spec: the segments of a forward-slash separated path (section 3). -/
def pathSegments : JSString → List JSString
  | [] => [[]]
  | c :: rest =>
    match pathSegments rest with
    | [] => [[c]]
    | seg :: segs => if c = 0x2F then [] :: seg :: segs else (c :: seg) :: segs

/-- Modelled from the spec: a normalized path (section 3): not empty, no leading slash and no
empty segment, no `.` or `..` segment. -/
def isNormalizedPath (p : JSString) : Bool :=
  (pathSegments p).all fun seg => seg ≠ [] && seg ≠ [0x2E] && seg ≠ [0x2E, 0x2E]

/-- Modelled from the spec: `get(path)` of a snapshot (section 4.1), `none` for `NotFound`. -/
def getPath (s : Snapshot) (path : JSString) : Option JSString :=
  (s.find? fun kv => kv.1 = path).map Prod.snd

/-- Modelled from the spec: one edit applied over a mapping (section 4.1): a tombstone, here
`none`, removes the path, a content replaces or adds it. -/
def applyEdit (s : Snapshot) (edit : JSString × Option JSString) : Snapshot :=
  match edit.2 with
  | none => s.filter fun kv => kv.1 ≠ edit.1
  | some content => setProperty edit.1 content s

/-- Modelled from the spec: what `merge(edits)` gives a path (section 4.1): the content of the
edit of that path, nothing if that edit is a tombstone, and the content the receiver gives
it if no edit names the path. -/
def mergedContent (s : Snapshot) (edits : List (JSString × Option JSString))
    (path : JSString) : Option JSString :=
  match edits.find? (fun e => e.1 = path) with
  | some e => e.2
  | none => getPath s path

/-- Modelled from the spec: `merge(edits)` of a snapshot (section 4.1).  An edit whose path is
not normalized, or two edits of one path, are rejected with `InvalidPath` before anything is
applied; the receiver is left as it is and a new snapshot is returned. -/
def mergeEdits (s : Snapshot) (edits : List (JSString × Option JSString)) :
    Except CoreError Snapshot :=
  if edits.all (fun e => isNormalizedPath e.1) && decide (edits.map Prod.fst).Nodup then
    .ok (edits.foldl applyEdit s)
  else .error .InvalidPath

/-- Modelled from the spec: the test "`newSnapshot` is identical to `baseSnapshot`" of
`commit` (section 4.4): the two map the same paths to the same contents. -/
def identicalSnapshots (a b : Snapshot) : Bool :=
  a.all (fun kv => getPath b kv.1 = getPath a kv.1)
    && b.all (fun kv => getPath a kv.1 = getPath b kv.1)

/-- Modelled from the spec: a commit of the commit store (section 3); `id` is its revision. -/
structure CoreCommit where
  id : Nat
  repository_id : Nat
  author_id : Nat
  message : String
  created_at : String
  snapshot : Snapshot
deriving DecidableEq, Repr

/-- Modelled from the spec: the history of one repository (section 4.4), its commits in
order, the commit of revision `n` at position `n - 1`. -/
abbrev History := List CoreCommit

/-- Modelled from the spec: `at(revision)` (section 4.4). -/
def commitAt (history : History) (revision : Nat) : Except CoreError CoreCommit :=
  if 1 ≤ revision ∧ revision ≤ history.length then
    match history[revision - 1]? with
    | some c => .ok c
    | none => .error .RevisionNotFound
  else .error .RevisionNotFound

/-- Modelled from the spec: `commit(baseRevision, edits, author, message)` (section 4.4); the
routes that create commits are not part of `app.js`.  It gives the new commit and the history
with that commit appended; `repository_id` and `created_at` are the repository and the time of
the call. -/
def commit (history : History) (repository_id : Nat) (created_at : String) (baseRevision : Nat)
    (edits : List (JSString × Option JSString)) (author : Nat) (message : String) :
    Except CoreError (CoreCommit × History) :=
  match commitAt history baseRevision with
  | .error e => .error e
  | .ok base =>
    match mergeEdits base.snapshot edits with
    | .error e => .error e
    | .ok newSnapshot =>
      if identicalSnapshots newSnapshot base.snapshot then .error .EmptyCommit
      else
        let c : CoreCommit :=
          { id := history.length + 1, repository_id := repository_id, author_id := author,
            message := message, created_at := created_at, snapshot := newSnapshot }
        .ok (c, history ++ [c])

/-- Modelled from the spec: the seed commit of `initDB` as a commit of the core. -/
def seedCommit : CoreCommit :=
  { id := 1, repository_id := 1, author_id := 1, message := "Initial commit",
    created_at := "2024-01-01T00:00:00.000Z", snapshot := initialSnapshot }

/-- Modelled from the spec: the history of a repository after seeding, the seed commit alone. -/
def seedHistory : History :=
  [seedCommit]

/-! ## Lemmas on the database operations -/

theorem nextId_ok (seq : Nat) (ids : List Nat) (id : Nat) (h : nextId seq ids = .ok id) :
    id = max seq (maxId ids) + 1 ∧ max seq (maxId ids) < maxRowid := by
  unfold nextId at h
  split at h
  · rename_i hlt
    simp only [Except.ok.injEq] at h
    exact ⟨h.symm, hlt⟩
  · cases h

theorem nextId_of_lt (seq : Nat) (ids : List Nat) (h : max seq (maxId ids) < maxRowid) :
    nextId seq ids = .ok (max seq (maxId ids) + 1) := by
  simp [nextId, h]

theorem nextId_error (seq : Nat) (ids : List Nat) (e : Exn) (h : nextId seq ids = .error e) :
    ¬ max seq (maxId ids) < maxRowid := by
  unfold nextId at h
  split at h
  · cases h
  · assumption

theorem toNumber_of_le (n : Nat) (h : n ≤ 2 ^ 53) : toNumber n = n := by
  unfold toNumber
  rw [if_pos h]

theorem le_maxId_of_mem (ids : List Nat) (i : Nat) (h : i ∈ ids) : i ≤ maxId ids := by
  induction ids with
  | nil => simp at h
  | cons j rest ih =>
    simp only [List.mem_cons] at h
    simp only [maxId]
    rcases h with h | h
    · subst h; exact le_max_left _ _
    · exact le_trans (ih h) (le_max_right _ _)

theorem parse_initialSnapshot :
    JSON.parse (JSON.stringify initialSnapshot) = some initialSnapshot := by
  decide

theorem insertUser_ok (db db1 : DB) (username email hash : String) (last : Nat)
    (h : insertUser db username email hash = .ok (db1, last)) :
    ∃ id, nextId db.seq_users (db.users.map (·.id)) = .ok id ∧ last = toNumber id
      ∧ db1 = { db with
                  users := db.users ++ [{ id := id, username := username, email := email,
                                          password_hash := hash }],
                  seq_users := id }
      ∧ (∀ v ∈ db.users, v.username ≠ username) ∧ (∀ v ∈ db.users, v.email ≠ email) := by
  unfold insertUser at h
  split at h
  · cases h
  · rename_i id hid
    split at h
    · cases h
    · rename_i h1
      split at h
      · cases h
      · rename_i h2
        simp only [Except.ok.injEq, Prod.mk.injEq] at h
        refine ⟨id, hid, h.2.symm, h.1.symm, ?_, ?_⟩
        · intro v hv hc
          exact h1 (by simp only [List.any_eq_true, decide_eq_true_eq]; exact ⟨v, hv, hc⟩)
        · intro v hv hc
          exact h2 (by simp only [List.any_eq_true, decide_eq_true_eq]; exact ⟨v, hv, hc⟩)

theorem insertRepo_ok (db db1 : DB) (owner_id : Nat) (name description : String)
    (p s : Int) (ca ua : String) (last : Nat)
    (h : insertRepo db owner_id name description p s ca ua = .ok (db1, last)) :
    ∃ id, nextId db.seq_repos (db.repos.map (·.id)) = .ok id ∧ last = toNumber id
      ∧ db1 = { db with
                  repos := db.repos ++
                    [{ id := id, owner_id := owner_id, name := name,
                       description := some description, is_private := some p,
                       stars_count := some s, created_at := ca, updated_at := ua }],
                  seq_repos := id }
      ∧ (∀ r ∈ db.repos, ¬ (r.owner_id = owner_id ∧ r.name = name))
      ∧ (∃ u ∈ db.users, u.id = owner_id) := by
  unfold insertRepo at h
  split at h
  · cases h
  · rename_i id hid
    split at h
    · cases h
    · rename_i h1
      split at h
      · cases h
      · rename_i h2
        simp only [Except.ok.injEq, Prod.mk.injEq] at h
        refine ⟨id, hid, h.2.symm, h.1.symm, ?_, ?_⟩
        · intro r hr hc
          exact h1 (by simp only [List.any_eq_true, decide_eq_true_eq]; exact ⟨r, hr, hc⟩)
        · simpa using h2

theorem insertCommit_ok (db db1 : DB) (repo_id author_id : Nat) (m ca : String)
    (snap : JSString) (last : Nat)
    (h : insertCommit db repo_id author_id m ca snap = .ok (db1, last)) :
    ∃ id, nextId db.seq_commits (db.commits.map (·.id)) = .ok id ∧ last = toNumber id
      ∧ db1 = { db with
                  commits := db.commits ++
                    [{ id := id, repo_id := repo_id, author_id := author_id,
                       message := m, created_at := ca, snapshot := snap }],
                  seq_commits := id }
      ∧ (∃ r ∈ db.repos, r.id = repo_id)
      ∧ (∃ u ∈ db.users, u.id = author_id) := by
  unfold insertCommit at h
  split at h
  · cases h
  · rename_i id hid
    split at h
    · cases h
    · rename_i h1
      split at h
      · cases h
      · rename_i h2
        simp only [Except.ok.injEq, Prod.mk.injEq] at h
        exact ⟨id, hid, h.2.symm, h.1.symm, by simpa using h1, by simpa using h2⟩

theorem initDB_of_users (P : Platform) (salt now : String) (db : DB) (h : db.users ≠ []) :
    initDB P salt now db = (db, none) := by
  have : db.users.length ≠ 0 := by simpa using h
  simp [initDB, this]

/-- What `initDB` does to the tables, whatever the state: users, repos and commits only grow
at the end, repos by rows that respect `UNIQUE(owner_id, name)`, and stars are untouched. -/
theorem initDB_frame (P : Platform) (salt now : String) (db : DB) :
    db.users <+: (initDB P salt now db).1.users
      ∧ (initDB P salt now db).1.stars = db.stars
      ∧ db.commits <+: (initDB P salt now db).1.commits
      ∧ ((initDB P salt now db).1.repos = db.repos
          ∨ ∃ r, (initDB P salt now db).1.repos = db.repos ++ [r]
              ∧ ∀ q ∈ db.repos, ¬ (q.owner_id = r.owner_id ∧ q.name = r.name)) := by
  unfold initDB
  simp only
  split
  · cases h1 : insertUser db "alex" "alex@example.com" (P.hashSync "password123" salt) with
    | error e => simp
    | ok r1 =>
      obtain ⟨db1, last1⟩ := r1
      obtain ⟨id1, _, _, hdb1, _, _⟩ := insertUser_ok _ _ _ _ _ _ h1
      simp only
      cases h2 : insertRepo db1 last1 "hello-world" "My first CodeHub repo" 0 3 now now with
      | error e => subst hdb1; simp
      | ok r2 =>
        obtain ⟨db2, last2⟩ := r2
        obtain ⟨id2, _, _, hdb2, hq2, _⟩ := insertRepo_ok _ _ _ _ _ _ _ _ _ _ h2
        simp only
        have hq : ∀ q ∈ db.repos, ¬ (q.owner_id = last1 ∧ q.name = "hello-world") := by
          subst hdb1; simpa using hq2
        cases h3 : insertCommit db2 last2 last1 "Initial commit" now
            (JSON.stringify initialSnapshot) with
        | error e =>
          simp only
          subst hdb2; subst hdb1
          exact ⟨by simp, rfl, by simp, Or.inr ⟨_, rfl, hq⟩⟩
        | ok r3 =>
          obtain ⟨db3, last3⟩ := r3
          obtain ⟨id3, _, _, hdb3, _, _⟩ := insertCommit_ok _ _ _ _ _ _ _ _ h3
          simp only
          subst hdb3; subst hdb2; subst hdb1
          exact ⟨by simp, rfl, by simp, Or.inr ⟨_, rfl, hq⟩⟩
  · simp

theorem postLogin_db (P : Platform) (db : DB) (session : Session) (body : LoginBody) :
    (postLogin P db session body).db = db := by
  unfold postLogin
  split
  · rfl
  · split <;> rfl

theorem postRegister_db (P : Platform) (salt : String) (db : DB) (session : Session)
    (body : RegisterBody) :
    (postRegister P salt db session body).db = db
      ∨ ∃ username email hash last,
          insertUser db username email hash
            = .ok ((postRegister P salt db session body).db, last) := by
  obtain ⟨username, email, password⟩ := body
  cases username with
  | none => exact Or.inl (by simp [postRegister, isFalsy])
  | some username =>
  cases email with
  | none => exact Or.inl (by simp [postRegister, isFalsy])
  | some email =>
  cases password with
  | none => exact Or.inl (by simp [postRegister, isFalsy])
  | some password =>
  by_cases hf : username = "" ∨ email = "" ∨ password = ""
  · exact Or.inl (by
      rcases hf with h | h | h <;> simp [postRegister, isFalsy, h])
  · have h1 : username ≠ "" := fun h => hf (Or.inl h)
    have h2 : email ≠ "" := fun h => hf (Or.inr (Or.inl h))
    have h3 : password ≠ "" := fun h => hf (Or.inr (Or.inr h))
    simp only [postRegister, isFalsy, h1, h2, h3, decide_False, Bool.or_self, Bool.false_eq_true,
      if_false]
    cases h : insertUser db (jsTrim username) (P.toLowerCase (jsTrim email))
        (P.hashSync password salt) with
    | error e => exact Or.inl rfl
    | ok r =>
      obtain ⟨db1, last⟩ := r
      exact Or.inr ⟨_, _, _, last, h⟩

/-- What any operation does to the tables: users and commits only grow at the end, stars are
untouched, and repos stay or gain one row whose `(owner_id, name)` is new. -/
theorem step_frame (P : Platform) (op : Op) (db : DB) (session : Session) :
    db.users <+: (step P op db session).1.users
      ∧ (step P op db session).1.stars = db.stars
      ∧ db.commits <+: (step P op db session).1.commits
      ∧ ((step P op db session).1.repos = db.repos
          ∨ ∃ r, (step P op db session).1.repos = db.repos ++ [r]
              ∧ ∀ q ∈ db.repos, ¬ (q.owner_id = r.owner_id ∧ q.name = r.name)) := by
  cases op with
  | initDB salt now => exact initDB_frame P salt now db
  | getHome => exact ⟨List.prefix_refl _, rfl, List.prefix_refl _, Or.inl rfl⟩
  | getLogin => exact ⟨List.prefix_refl _, rfl, List.prefix_refl _, Or.inl rfl⟩
  | getRegister => exact ⟨List.prefix_refl _, rfl, List.prefix_refl _, Or.inl rfl⟩
  | postLogout => exact ⟨List.prefix_refl _, rfl, List.prefix_refl _, Or.inl rfl⟩
  | postLogin body =>
    simp [step, postLogin_db]
  | postRegister salt body =>
    simp only [step]
    rcases postRegister_db P salt db session body with h | ⟨u, e, hash, last, h⟩
    · rw [h]; simp
    · obtain ⟨id, _, _, hdb1, _, _⟩ := insertUser_ok _ _ _ _ _ _ h
      rw [hdb1]
      simp

theorem ownerNameUnique_step (P : Platform) (op : Op) (db : DB) (session : Session)
    (h : OwnerNameUnique db) : OwnerNameUnique (step P op db session).1 := by
  obtain ⟨_, _, _, hr⟩ := step_frame P op db session
  unfold OwnerNameUnique at *
  rcases hr with hr | ⟨r, hr, hq⟩
  · rw [hr]; exact h
  · rw [hr, List.pairwise_append]
    refine ⟨h, List.pairwise_singleton _ _, ?_⟩
    intro a ha b hb
    rw [List.mem_singleton] at hb
    subst hb
    exact hq a ha

theorem reachable_ownerNameUnique (P : Platform) (db : DB) (h : Reachable P db) :
    OwnerNameUnique db := by
  induction h with
  | fresh => simp [OwnerNameUnique, DB.empty]
  | step op session _ ih => exact ownerNameUnique_step P op _ session ih

theorem initDB_empty (P : Platform) (salt now : String) :
    initDB P salt now DB.empty =
      ({ users := [{ id := 1, username := "alex", email := "alex@example.com",
                     password_hash := P.hashSync "password123" salt }],
         repos := [{ id := 1, owner_id := 1, name := "hello-world",
                     description := some "My first CodeHub repo", is_private := some 0,
                     stars_count := some 3,
                     created_at := now, updated_at := now }],
         stars := [],
         commits := [{ id := 1, repo_id := 1, author_id := 1, message := "Initial commit",
                       created_at := now, snapshot := JSON.stringify initialSnapshot }],
         seq_users := 1, seq_repos := 1, seq_commits := 1 }, none) := by
  simp [initDB, DB.empty, insertUser, insertRepo, insertCommit, nextId, maxId, maxRowid,
    toNumber]

theorem seedInvariant_step (P : Platform) (op : Op) (db : DB) (session : Session)
    (h : SeedInvariant db) : SeedInvariant (step P op db session).1 := by
  obtain ⟨hfresh, hinv⟩ := h
  cases op with
  | getHome => exact ⟨hfresh, hinv⟩
  | getLogin => exact ⟨hfresh, hinv⟩
  | getRegister => exact ⟨hfresh, hinv⟩
  | postLogout => exact ⟨hfresh, hinv⟩
  | postLogin body =>
    simp only [step, postLogin_db]
    exact ⟨hfresh, hinv⟩
  | initDB salt now =>
    simp only [step]
    by_cases hu : db.users = []
    · rw [hfresh hu, initDB_empty]
      constructor
      · intro h; simp at h
      · intro r hr
        simp only [List.mem_singleton] at hr
        subst hr
        exact ⟨_, List.mem_singleton.mpr rfl, rfl⟩
    · rw [initDB_of_users P salt now db hu]
      exact ⟨hfresh, hinv⟩
  | postRegister salt body =>
    simp only [step]
    rcases postRegister_db P salt db session body with h | ⟨u, e, hash, last, h⟩
    · rw [h]; exact ⟨hfresh, hinv⟩
    · obtain ⟨id, _, _, hdb1, _, _⟩ := insertUser_ok _ _ _ _ _ _ h
      rw [hdb1]
      constructor
      · intro h0; simp at h0
      · exact hinv

theorem reachable_seedInvariant (P : Platform) (db : DB) (h : Reachable P db) :
    SeedInvariant db := by
  induction h with
  | fresh => exact ⟨fun _ => rfl, by intro r hr; simp [DB.empty] at hr⟩
  | step op session _ ih => exact seedInvariant_step P op _ session ih

theorem find_append_singleton {α : Type} (p : α → Bool) (l : List α) (a : α)
    (hl : ∀ x ∈ l, p x = false) (ha : p a = true) : (l ++ [a]).find? p = some a := by
  induction l with
  | nil => simp [ha]
  | cons x rest ih =>
    have hx := hl x (by simp)
    simp only [List.cons_append, List.find?_cons, hx]
    exact ih (fun y hy => hl y (List.mem_cons_of_mem _ hy))

theorem find_append_none {α : Type} (p : α → Bool) (l : List α) (a : α)
    (hl : ∀ x ∈ l, p x = false) (ha : p a = false) : (l ++ [a]).find? p = none := by
  simp only [List.find?_eq_none, List.mem_append, List.mem_singleton]
  rintro x (hx | rfl)
  · simp [hl x hx]
  · simp [ha]

theorem find_append_of_mem {α : Type} (p : α → Bool) (l : List α) (a x : α)
    (hx : x ∈ l) (hp : p x = true) :
    ∃ y ∈ l, p y = true ∧ (l ++ [a]).find? p = some y := by
  induction l with
  | nil => simp at hx
  | cons z rest ih =>
    by_cases hz : p z = true
    · exact ⟨z, by simp, hz, by simp [List.find?_cons, hz]⟩
    · have hx2 : x ∈ rest := by
        rcases List.mem_cons.mp hx with h | h
        · subst h; exact absurd hp hz
        · exact h
      obtain ⟨y, hy, hpy, hfind⟩ := ih hx2
      refine ⟨y, List.mem_cons_of_mem _ hy, hpy, ?_⟩
      simp only [Bool.not_eq_true] at hz
      simp only [List.cons_append, List.find?_cons, hz]
      exact hfind

/-- What `POST /login` does when the request carries a password, or no user matches: either
it stores a matching user whose hash verifies and redirects, or it leaves the session as it
is and renders the login page with `Invalid credentials`. -/
theorem postLogin_spec (P : Platform) (db : DB) (session : Session) (body : LoginBody)
    (h : body.password ≠ none ∨ selectUserByLogin db body.username = none) :
    (∃ user name password, body.username = some name ∧ body.password = some password
        ∧ user ∈ db.users ∧ (user.username = name ∨ user.email = name)
        ∧ P.compareSync password user.password_hash = true
        ∧ postLogin P db session body
            = { db := db, session := some user, response := .redirect "/" })
      ∨ postLogin P db session body
            = { db := db, session := session, response := invalidCredentials } := by
  unfold postLogin
  cases hsel : selectUserByLogin db body.username with
  | none => exact Or.inr rfl
  | some user =>
    have hpw : body.password ≠ none := by
      rcases h with h | h
      · exact h
      · rw [hsel] at h; cases h
    cases hpass : body.password with
    | none => exact absurd hpass hpw
    | some password =>
      cases hname : body.username with
      | none => rw [hname] at hsel; simp [selectUserByLogin] at hsel
      | some name =>
        rw [hname] at hsel
        simp only [selectUserByLogin] at hsel
        have hfound : user ∈ db.users ∧ (user.username = name ∨ user.email = name) := by
          cases hfu : db.users.find? (fun u => u.username = name) with
          | some u1 =>
            rw [hfu] at hsel
            simp only [Option.some.injEq] at hsel
            subst hsel
            have := List.find?_some hfu
            simp only [decide_eq_true_eq] at this
            exact ⟨List.mem_of_find?_eq_some hfu, Or.inl this⟩
          | none =>
            rw [hfu] at hsel
            simp only at hsel
            have := List.find?_some hsel
            simp only [decide_eq_true_eq] at this
            exact ⟨List.mem_of_find?_eq_some hsel, Or.inr this⟩
        simp only [compareSyncField]
        cases hc : P.compareSync password user.password_hash with
        | false => exact Or.inr rfl
        | true =>
          exact Or.inl ⟨user, name, password, rfl, rfl, hfound.1, hfound.2, hc, rfl⟩

theorem toyPlatform_sound : toyPlatform.Sound := by
  intro data salt
  simp [toyPlatform]

theorem insertUser_of_empty (db : DB) (username email hash : String) (hu : db.users = [])
    (hseq : db.seq_users < maxRowid) :
    insertUser db username email hash
      = .ok ({ db with
                users := [{ id := db.seq_users + 1, username := username, email := email,
                            password_hash := hash }],
                seq_users := db.seq_users + 1 }, toNumber (db.seq_users + 1)) := by
  simp [insertUser, hu, nextId, maxId, hseq]

theorem insertUser_of_empty_full (db : DB) (username email hash : String) (hu : db.users = [])
    (hseq : ¬ db.seq_users < maxRowid) :
    insertUser db username email hash = .error .databaseFull := by
  simp [insertUser, hu, nextId, maxId, hseq]

theorem insertRepo_of (db : DB) (owner_id : Nat) (name description : String)
    (p s : Int) (ca ua : String) (hnext : lastRepoId db < maxRowid)
    (huniq : ∀ r ∈ db.repos, ¬ (r.owner_id = owner_id ∧ r.name = name))
    (hfk : ∃ u ∈ db.users, u.id = owner_id) :
    insertRepo db owner_id name description p s ca ua
      = .ok ({ db with
                repos := db.repos ++
                  [{ id := lastRepoId db + 1, owner_id := owner_id, name := name,
                     description := some description, is_private := some p,
                     stars_count := some s, created_at := ca, updated_at := ua }],
                seq_repos := lastRepoId db + 1 }, toNumber (lastRepoId db + 1)) := by
  have h1 : db.repos.any (fun r => decide (r.owner_id = owner_id ∧ r.name = name)) = false := by
    rw [List.any_eq_false]
    intro r hr
    simpa using huniq r hr
  have h2 : db.users.any (fun u => decide (u.id = owner_id)) = true := by
    rw [List.any_eq_true]
    obtain ⟨u, hu, hid⟩ := hfk
    exact ⟨u, hu, by simpa using hid⟩
  unfold lastRepoId at hnext
  simp only [insertRepo, nextId, hnext, if_true, h1, h2, lastRepoId, Bool.false_eq_true,
    if_false, not_true_eq_false]

theorem insertCommit_of (db : DB) (repo_id author_id : Nat) (m ca : String) (snap : JSString)
    (hnext : lastCommitId db < maxRowid)
    (hrepo : ∃ r ∈ db.repos, r.id = repo_id) (huser : ∃ u ∈ db.users, u.id = author_id) :
    insertCommit db repo_id author_id m ca snap
      = .ok ({ db with
                commits := db.commits ++
                  [{ id := lastCommitId db + 1, repo_id := repo_id, author_id := author_id,
                     message := m, created_at := ca, snapshot := snap }],
                seq_commits := lastCommitId db + 1 }, toNumber (lastCommitId db + 1)) := by
  have h1 : db.repos.any (fun r => decide (r.id = repo_id)) = true := by
    rw [List.any_eq_true]
    obtain ⟨r, hr, hid⟩ := hrepo
    exact ⟨r, hr, by simpa using hid⟩
  have h2 : db.users.any (fun u => decide (u.id = author_id)) = true := by
    rw [List.any_eq_true]
    obtain ⟨u, hu, hid⟩ := huser
    exact ⟨u, hu, by simpa using hid⟩
  unfold lastCommitId at hnext
  simp only [insertCommit, nextId, hnext, if_true, h1, h2, lastCommitId, not_true_eq_false,
    if_false]

/-- The database `initDB` leaves on a state that can be seeded. -/
theorem initDB_of_canSeed (P : Platform) (salt now : String) (db : DB)
    (husers : db.users = []) (h : CanSeed db) :
    initDB P salt now db =
      ({ db with
          users := [{ id := db.seq_users + 1, username := "alex", email := "alex@example.com",
                      password_hash := P.hashSync "password123" salt }],
          seq_users := db.seq_users + 1,
          repos := db.repos ++
            [{ id := lastRepoId db + 1, owner_id := db.seq_users + 1, name := "hello-world",
               description := some "My first CodeHub repo", is_private := some 0,
               stars_count := some 3, created_at := now, updated_at := now }],
          seq_repos := lastRepoId db + 1,
          commits := db.commits ++
            [{ id := lastCommitId db + 1, repo_id := lastRepoId db + 1,
               author_id := db.seq_users + 1, message := "Initial commit",
               created_at := now, snapshot := JSON.stringify initialSnapshot }],
          seq_commits := lastCommitId db + 1 }, none) := by
  obtain ⟨h1, h2, h3, h4, h5, h6⟩ := h
  simp only [initDB, husers, List.length_nil, if_true,
    insertUser_of_empty db _ _ _ husers h1, h2]
  have hrepo := insertRepo_of
    { db with
        users := [{ id := db.seq_users + 1, username := "alex", email := "alex@example.com",
                    password_hash := P.hashSync "password123" salt }],
        seq_users := db.seq_users + 1 }
    (db.seq_users + 1) "hello-world" "My first CodeHub repo" 0 3 now now h4 h3
    ⟨_, List.mem_singleton.mpr rfl, rfl⟩
  rw [hrepo]
  simp only
  have h5' : toNumber (lastRepoId
      { db with
          users := [{ id := db.seq_users + 1, username := "alex", email := "alex@example.com",
                      password_hash := P.hashSync "password123" salt }],
          seq_users := db.seq_users + 1 } + 1) = lastRepoId db + 1 := h5
  rw [h5']
  have hcommit := insertCommit_of
    { db with
        users := [{ id := db.seq_users + 1, username := "alex", email := "alex@example.com",
                    password_hash := P.hashSync "password123" salt }],
        seq_users := db.seq_users + 1,
        repos := db.repos ++
          [{ id := lastRepoId db + 1, owner_id := db.seq_users + 1, name := "hello-world",
             description := some "My first CodeHub repo", is_private := some 0,
             stars_count := some 3, created_at := now, updated_at := now }],
        seq_repos := lastRepoId db + 1 }
    (lastRepoId db + 1) (db.seq_users + 1) "Initial commit" now
    (JSON.stringify initialSnapshot) h6
    ⟨_, List.mem_append_right _ (List.mem_singleton.mpr rfl), rfl⟩
    ⟨_, List.mem_singleton.mpr rfl, rfl⟩
  split
  · rename_i e he
    cases he.symm.trans hcommit
  · rename_i db3 last3 he
    have h3 := he.symm.trans hcommit
    simp only [Except.ok.injEq, Prod.mk.injEq] at h3
    rw [h3.1]
    rfl

theorem seedsOneRepository_length (before after : DB) (h : SeedsOneRepository before after) :
    after.repos.length = before.repos.length + 1
      ∧ after.commits.length = before.commits.length + 1 := by
  obtain ⟨r, c, hr, hc, _⟩ := h
  simp [hr, hc]
theorem seedsOneRepository_of_canSeed (P : Platform) (salt now : String) (db : DB)
    (husers : db.users = []) (h : CanSeed db) :
    SeedsOneRepository db (initDB P salt now db).1 := by
  rw [initDB_of_canSeed P salt now db husers h]
  exact ⟨_, _, rfl, rfl, rfl, rfl, ⟨_, List.mem_singleton.mpr rfl, rfl⟩, rfl,
    parse_initialSnapshot, by decide⟩

theorem canSeed_of_seedsOneRepository (P : Platform) (salt now : String) (db : DB)
    (husers : db.users = []) (hS : SeedsOneRepository db (initDB P salt now db).1) :
    CanSeed db := by
  obtain ⟨hlenr, hlenc⟩ := seedsOneRepository_length _ _ hS
  by_cases h1 : db.seq_users < maxRowid
  · cases h2 : insertRepo
        { db with
            users := [{ id := db.seq_users + 1, username := "alex",
                        email := "alex@example.com",
                        password_hash := P.hashSync "password123" salt }],
            seq_users := db.seq_users + 1 }
        (toNumber (db.seq_users + 1)) "hello-world" "My first CodeHub repo" 0 3 now now with
    | error e =>
      have hres : (initDB P salt now db).1.repos = db.repos := by
        simp only [initDB, husers, List.length_nil, if_true,
          insertUser_of_empty db _ _ _ husers h1, h2]
      rw [hres] at hlenr
      omega
    | ok r2 =>
      obtain ⟨db2, last2⟩ := r2
      obtain ⟨id2, hnext2, hlast2, hdb2, huniq, hfk⟩ := insertRepo_ok _ _ _ _ _ _ _ _ _ _ h2
      obtain ⟨hid2, hroom2⟩ := nextId_ok _ _ _ hnext2
      have hnum1 : toNumber (db.seq_users + 1) = db.seq_users + 1 := by
        obtain ⟨u, hu, huid⟩ := hfk
        simp only [List.mem_singleton] at hu
        subst hu
        exact huid.symm
      cases h3 : insertCommit db2 last2 (toNumber (db.seq_users + 1)) "Initial commit" now
          (JSON.stringify initialSnapshot) with
      | error e =>
        have hres : (initDB P salt now db).1.commits = db.commits := by
          simp only [initDB, husers, List.length_nil, if_true,
            insertUser_of_empty db _ _ _ husers h1, h2, h3]
          rw [hdb2]
        rw [hres] at hlenc
        omega
      | ok r3 =>
        obtain ⟨db3, last3⟩ := r3
        obtain ⟨id3, hnext3, _, hdb3, _, _⟩ := insertCommit_ok _ _ _ _ _ _ _ _ h3
        obtain ⟨_, hroom3⟩ := nextId_ok _ _ _ hnext3
        have hres : (initDB P salt now db).1 = db3 := by
          simp only [initDB, husers, List.length_nil, if_true,
            insertUser_of_empty db _ _ _ husers h1, h2, h3]
        obtain ⟨r, c, hr, hc, hcr, _⟩ := hS
        rw [hres, hdb3, hdb2] at hr hc
        simp only [List.append_cancel_left_eq, List.cons.injEq, and_true] at hr hc
        subst hr
        subst hc
        simp only at hcr
        have hnum2 : toNumber id2 = id2 := by rw [← hlast2]; exact hcr
        rw [hdb2] at hroom3
        refine ⟨h1, hnum1, ?_, hroom2, ?_, hroom3⟩
        · intro q hq hc
          exact huniq q hq ⟨by rw [hnum1]; exact hc.1, hc.2⟩
        · rw [hid2] at hnum2
          exact hnum2
  · have hres : (initDB P salt now db).1.repos = db.repos := by
      simp only [initDB, husers, List.length_nil, if_true,
        insertUser_of_empty_full db _ _ _ husers h1]
    rw [hres] at hlenr
    omega

/-! ## Lemmas on the JSON text of a snapshot -/

theorem parseStringBody_cons (c : Nat) (rest : List Nat) :
    parseStringBody (c :: rest) =
      if c = 0x22 then some ([], rest)
      else if c = 0x5C then
        match rest with
        | [] => none
        | e :: rest1 =>
          if e = 0x75 then
            match rest1 with
            | h1 :: h2 :: h3 :: h4 :: rest2 =>
              match hex4 h1 h2 h3 h4 with
              | some u => consResult u (parseStringBody rest2)
              | none => none
            | _ => none
          else
            match simpleEscape e with
            | some u => consResult u (parseStringBody rest1)
            | none => none
      else if c < 0x20 then none
      else consResult c (parseStringBody rest) := by
  rw [parseStringBody.eq_def]

theorem hexValue_hexDigit (d : Nat) (h : d < 16) : hexValue (hexDigit d) = some d := by
  interval_cases d <;> decide

theorem hex4_unicodeEscape (c : Nat) (h : c < 65536) :
    hex4 (hexDigit (c / 4096 % 16)) (hexDigit (c / 256 % 16)) (hexDigit (c / 16 % 16))
      (hexDigit (c % 16)) = some c := by
  have h1 := hexValue_hexDigit (c / 4096 % 16) (Nat.mod_lt _ (by norm_num))
  have h2 := hexValue_hexDigit (c / 256 % 16) (Nat.mod_lt _ (by norm_num))
  have h3 := hexValue_hexDigit (c / 16 % 16) (Nat.mod_lt _ (by norm_num))
  have h4 := hexValue_hexDigit (c % 16) (Nat.mod_lt _ (by norm_num))
  simp only [hex4, h1, h2, h3, h4, Option.some.injEq]
  omega

theorem parseStringBody_unicodeEscape (c : Nat) (h : c < 65536) (t : List Nat) :
    parseStringBody (unicodeEscape c ++ t) = consResult c (parseStringBody t) := by
  simp [unicodeEscape, parseStringBody_cons, hex4_unicodeEscape c h]

theorem parseStringBody_quoteUnit (c : Nat) (t : List Nat) :
    parseStringBody (quoteUnit c ++ t) = consResult c (parseStringBody t) := by
  unfold quoteUnit
  split_ifs with h1 h2 h3 h4 h5 h6 h7 h8
  · subst h1; simp [parseStringBody_cons, simpleEscape]
  · subst h2; simp [parseStringBody_cons, simpleEscape]
  · subst h3; simp [parseStringBody_cons, simpleEscape]
  · subst h4; simp [parseStringBody_cons, simpleEscape]
  · subst h5; simp [parseStringBody_cons, simpleEscape]
  · subst h6; simp [parseStringBody_cons, simpleEscape]
  · subst h7; simp [parseStringBody_cons, simpleEscape]
  · apply parseStringBody_unicodeEscape
    simp only [isLeadSurrogate, isTrailSurrogate, Bool.or_eq_true, decide_eq_true_eq,
      Bool.and_eq_true] at h8
    omega
  · simp only [isLeadSurrogate, isTrailSurrogate, Bool.or_eq_true, decide_eq_true_eq,
      Bool.and_eq_true, not_or, not_lt] at h8
    have : ¬ c < 32 := by omega
    simp [parseStringBody_cons, h6, h7, this]

theorem parseStringBody_pair (c d : Nat) (hc : isLeadSurrogate c = true)
    (hd : isTrailSurrogate d = true) (t : List Nat) :
    parseStringBody (c :: d :: t) = consResult c (consResult d (parseStringBody t)) := by
  simp only [isLeadSurrogate, isTrailSurrogate, Bool.and_eq_true, decide_eq_true_eq] at hc hd
  have c1 : c ≠ 34 := by omega
  have c2 : c ≠ 92 := by omega
  have c3 : ¬ c < 32 := by omega
  have d1 : d ≠ 34 := by omega
  have d2 : d ≠ 92 := by omega
  have d3 : ¬ d < 32 := by omega
  simp [parseStringBody_cons, c1, c2, c3, d1, d2, d3]

theorem parseStringBody_quoteBody (s : JSString) (rest : List Nat) :
    parseStringBody (quoteBody s ++ 0x22 :: rest) = some (s, rest) := by
  induction s using quoteBody.induct with
  | case1 => simp [quoteBody, parseStringBody_cons]
  | case2 c =>
    simp only [quoteBody]
    rw [parseStringBody_quoteUnit]
    simp [parseStringBody_cons, consResult]
  | case3 c d t h ih =>
    simp only [quoteBody, h, if_true]
    simp only [Bool.and_eq_true] at h
    rw [List.cons_append, List.cons_append, parseStringBody_pair c d h.1 h.2, ih]
    rfl
  | case4 c d t h ih =>
    simp only [quoteBody, h, Bool.false_eq_true, if_false]
    rw [List.append_assoc, parseStringBody_quoteUnit, ih]
    rfl

theorem parseString_quoteJSONString (s : JSString) (rest : List Nat) :
    parseString (quoteJSONString s ++ rest) = some (s, rest) := by
  simp only [quoteJSONString, parseString, List.cons_append, expect, if_true, List.append_assoc,
    List.singleton_append]
  exact parseStringBody_quoteBody s rest

theorem skipWs_quoteJSONString (s : JSString) (rest : List Nat) :
    skipWs (quoteJSONString s ++ rest) = quoteJSONString s ++ rest := by
  simp [quoteJSONString, skipWs, isJSONWhiteSpace]

theorem parseMember_serialized (k v : JSString) (rest : List Nat) :
    parseMember (quoteJSONString k ++ 0x3A :: quoteJSONString v ++ rest)
      = some ((k, v), skipWs rest) := by
  unfold parseMember
  rw [List.append_assoc, skipWs_quoteJSONString, parseString_quoteJSONString]
  simp only [List.cons_append]
  have h1 : skipWs (0x3A :: (quoteJSONString v ++ rest)) = 0x3A :: (quoteJSONString v ++ rest) := by
    simp [skipWs, isJSONWhiteSpace]
  rw [h1]
  simp only [expect, if_true]
  rw [skipWs_quoteJSONString, parseString_quoteJSONString]

theorem parseMembers_serialized (fuel : Nat) (m : JSString × JSString) (ms : Snapshot)
    (acc : Snapshot) (rest : List Nat) (hfuel : ms.length < fuel) :
    parseMembers fuel (serializeMembers (m :: ms) ++ 0x7D :: rest) acc
      = some ((m :: ms).foldl (fun a kv => setProperty kv.1 kv.2 a) acc, rest) := by
  induction ms generalizing fuel m acc with
  | nil =>
    obtain ⟨k, v⟩ := m
    obtain ⟨fuel, rfl⟩ : ∃ n, fuel = n + 1 := ⟨fuel - 1, by simp at hfuel; omega⟩
    simp only [serializeMembers, parseMembers]
    rw [parseMember_serialized]
    simp [skipWs, isJSONWhiteSpace]
  | cons m2 ms ih =>
    obtain ⟨k, v⟩ := m
    obtain ⟨fuel, rfl⟩ : ∃ n, fuel = n + 1 := ⟨fuel - 1, by simp at hfuel; omega⟩
    simp only [serializeMembers, parseMembers]
    have : (quoteJSONString k ++ 58 :: quoteJSONString v ++ 44 :: serializeMembers (m2 :: ms))
          ++ 125 :: rest
        = quoteJSONString k ++ 58 :: quoteJSONString v
          ++ (44 :: (serializeMembers (m2 :: ms) ++ 125 :: rest)) := by simp
    rw [this, parseMember_serialized]
    simp only [skipWs, isJSONWhiteSpace]
    simp only [Nat.reduceEqDiff, decide_False, Bool.or_self, Bool.false_eq_true, if_false, if_true]
    rw [ih fuel m2 _ (by simp at hfuel ⊢; omega)]
    rfl

theorem setProperty_of_not_mem (k v : JSString) (acc : Snapshot)
    (h : k ∉ acc.map Prod.fst) : setProperty k v acc = acc ++ [(k, v)] := by
  induction acc with
  | nil => rfl
  | cons a rest ih =>
    obtain ⟨k1, v1⟩ := a
    simp only [List.map_cons, List.mem_cons, not_or] at h
    have hne : k1 ≠ k := fun e => h.1 e.symm
    simp only [setProperty, hne, if_false, List.cons_append, ih h.2]

theorem foldl_setProperty (s acc : Snapshot) (hs : (s.map Prod.fst).Nodup)
    (hdisj : ∀ k ∈ s.map Prod.fst, k ∉ acc.map Prod.fst) :
    s.foldl (fun a kv => setProperty kv.1 kv.2 a) acc = acc ++ s := by
  induction s generalizing acc with
  | nil => simp
  | cons m ms ih =>
    obtain ⟨k, v⟩ := m
    simp only [List.map_cons, List.nodup_cons] at hs
    simp only [List.foldl_cons]
    rw [setProperty_of_not_mem k v acc (hdisj k (by simp))]
    rw [ih _ hs.2]
    · simp
    · intro k2 hk2
      simp only [List.map_append, List.map_cons, List.map_nil, List.mem_append,
        List.mem_singleton, not_or]
      refine ⟨hdisj k2 (by simp [hk2]), ?_⟩
      rintro rfl
      exact hs.1 hk2

theorem length_le_serializeMembers (s : Snapshot) : s.length ≤ (serializeMembers s).length := by
  induction s using serializeMembers.induct with
  | case1 => simp
  | case2 k v => simp [serializeMembers, quoteJSONString]
  | case3 k v m rest ih =>
    simp only [serializeMembers, List.length_append, List.length_cons] at ih ⊢
    omega

theorem serializeMembers_head (m : JSString × JSString) (ms : Snapshot) :
    ∃ t, serializeMembers (m :: ms) = 0x22 :: t := by
  obtain ⟨k, v⟩ := m
  cases ms with
  | nil => exact ⟨_, by simp [serializeMembers, quoteJSONString]; rfl⟩
  | cons m2 rest => exact ⟨_, by simp [serializeMembers, quoteJSONString]; rfl⟩

/-! ## Lemmas on the differ and the commit store -/

theorem flatten_splitLines (t : JSString) : (splitLines t).flatten = t := by
  induction t with
  | nil => rfl
  | cons c rest ih =>
    simp only [splitLines]
    split_ifs with h
    · simp [ih]
    · cases hs : splitLines rest with
      | nil => rw [hs] at ih; simp at ih; simp [← ih]
      | cons l ls => rw [hs] at ih; simp at ih; simp [← ih]

theorem keptNew_pushLineOp (op : LineOp) (script : List EditOp) :
    (pushLineOp op script).flatMap EditOp.keptNew
      = (match op with
          | .keep l => [l]
          | .insert l => [l]
          | .delete _ => []) ++ script.flatMap EditOp.keptNew := by
  unfold pushLineOp
  split <;> simp [EditOp.keptNew]

theorem keptOld_pushLineOp (op : LineOp) (script : List EditOp) :
    (pushLineOp op script).flatMap EditOp.keptOld
      = (match op with
          | .keep l => [l]
          | .delete l => [l]
          | .insert _ => []) ++ script.flatMap EditOp.keptOld := by
  unfold pushLineOp
  split <;> simp [EditOp.keptOld]

theorem keptNew_groupRuns_alignLines (xs ys : List JSString) :
    (groupRuns (alignLines xs ys)).flatMap EditOp.keptNew = ys := by
  induction xs, ys using alignLines.induct with
  | case1 ys =>
    simp only [alignLines]
    induction ys with
    | nil => rfl
    | cons y ys ih =>
      simp only [groupRuns, List.map_cons, List.foldr_cons] at ih ⊢
      rw [keptNew_pushLineOp, ih]; rfl
  | case2 x xs =>
    simp only [alignLines]
    generalize x :: xs = zs
    induction zs with
    | nil => rfl
    | cons z zs ih =>
      simp only [groupRuns, List.map_cons, List.foldr_cons] at ih ⊢
      rw [keptNew_pushLineOp, ih]; rfl
  | case3 x xs ys ih =>
    simp only [alignLines, if_true, groupRuns, List.foldr_cons] at ih ⊢
    rw [keptNew_pushLineOp, ih]; rfl
  | case4 x xs y ys h hl ih =>
    simp only [alignLines, h, hl, if_true, if_false, groupRuns, List.foldr_cons] at ih ⊢
    rw [keptNew_pushLineOp, ih]; rfl
  | case5 x xs y ys h hl ih =>
    simp only [alignLines, h, hl, if_true, if_false, groupRuns, List.foldr_cons] at ih ⊢
    rw [keptNew_pushLineOp, ih]; rfl

theorem keptOld_groupRuns_alignLines (xs ys : List JSString) :
    (groupRuns (alignLines xs ys)).flatMap EditOp.keptOld = xs := by
  induction xs, ys using alignLines.induct with
  | case1 ys =>
    simp only [alignLines]
    induction ys with
    | nil => rfl
    | cons y ys ih =>
      simp only [groupRuns, List.map_cons, List.foldr_cons] at ih ⊢
      rw [keptOld_pushLineOp, ih]; rfl
  | case2 x xs =>
    simp only [alignLines]
    generalize x :: xs = zs
    induction zs with
    | nil => rfl
    | cons z zs ih =>
      simp only [groupRuns, List.map_cons, List.foldr_cons] at ih ⊢
      rw [keptOld_pushLineOp, ih]; rfl
  | case3 x xs ys ih =>
    simp only [alignLines, if_true, groupRuns, List.foldr_cons] at ih ⊢
    rw [keptOld_pushLineOp, ih]; rfl
  | case4 x xs y ys h hl ih =>
    simp only [alignLines, h, hl, if_true, if_false, groupRuns, List.foldr_cons] at ih ⊢
    rw [keptOld_pushLineOp, ih]; rfl
  | case5 x xs y ys h hl ih =>
    simp only [alignLines, h, hl, if_true, if_false, groupRuns, List.foldr_cons] at ih ⊢
    rw [keptOld_pushLineOp, ih]; rfl

theorem commitAt_of_getElem (history : History) (revision : Nat) (base : CoreCommit)
    (h1 : 1 ≤ revision) (h2 : revision ≤ history.length)
    (hbase : history[revision - 1]? = some base) :
    commitAt history revision = .ok base := by
  simp [commitAt, h1, h2, hbase]

theorem getPath_setProperty (s : Snapshot) (p c q : JSString) :
    getPath (setProperty p c s) q = if q = p then some c else getPath s q := by
  induction s with
  | nil =>
    by_cases h : q = p
    · subst h; simp [setProperty, getPath]
    · have h2 : ¬ p = q := fun e => h e.symm
      simp [setProperty, getPath, h, h2]
  | cons kv rest ih =>
    obtain ⟨k, v⟩ := kv
    by_cases hk : k = p
    · subst hk
      by_cases h : q = k
      · subst h; simp [setProperty, getPath]
      · have h2 : ¬ k = q := fun e => h e.symm
        simp [setProperty, getPath, h, h2, List.find?_cons]
    · simp only [setProperty, hk, if_false]
      by_cases hq : k = q
      · subst hq
        have h2 : ¬ k = p := hk
        simp [getPath, List.find?_cons, h2]
      · simp only [getPath, List.find?_cons, hq, decide_False] at ih ⊢
        exact ih

theorem getPath_filter (s : Snapshot) (p q : JSString) :
    getPath (s.filter fun kv => kv.1 ≠ p) q = if q = p then none else getPath s q := by
  induction s with
  | nil => simp [getPath]
  | cons kv rest ih =>
    obtain ⟨k, v⟩ := kv
    by_cases hk : k = p
    · subst hk
      by_cases h : q = k
      · subst h
        simp [getPath, List.filter_cons] at ih ⊢
      · have h2 : ¬ k = q := fun e => h e.symm
        simp only [getPath, List.filter_cons, ne_eq, not_true_eq_false, decide_False,
          Bool.false_eq_true, if_false, List.find?_cons, h2] at ih ⊢
        simpa [h] using ih
    · by_cases hq : k = q
      · subst hq
        simp [getPath, List.filter_cons, hk, List.find?_cons]
      · simp only [getPath, List.filter_cons, ne_eq, hk, not_false_eq_true, decide_True,
          if_true, List.find?_cons, hq, decide_False] at ih ⊢
        exact ih

theorem getPath_applyEdit (s : Snapshot) (edit : JSString × Option JSString) (q : JSString) :
    getPath (applyEdit s edit) q = if q = edit.1 then edit.2 else getPath s q := by
  obtain ⟨p, e⟩ := edit
  cases e with
  | none => simpa [applyEdit] using getPath_filter s p q
  | some c => simpa [applyEdit] using getPath_setProperty s p c q

theorem getPath_foldl_applyEdit (edits : List (JSString × Option JSString)) (s : Snapshot)
    (hdistinct : (edits.map Prod.fst).Nodup) (q : JSString) :
    getPath (edits.foldl applyEdit s) q = mergedContent s edits q := by
  induction edits generalizing s with
  | nil => simp [mergedContent]
  | cons e rest ih =>
    simp only [List.map_cons, List.nodup_cons] at hdistinct
    simp only [List.foldl_cons]
    rw [ih _ hdistinct.2]
    unfold mergedContent
    by_cases hq : e.1 = q
    · subst hq
      have hnone : rest.find? (fun x => decide (x.1 = e.1)) = none := by
        simp only [List.find?_eq_none, decide_eq_true_eq]
        intro x hx hxq
        exact hdistinct.1 (by rw [← hxq]; exact List.mem_map_of_mem _ hx)
      simp [hnone, List.find?_cons, getPath_applyEdit]
    · have hq2 : ¬ q = e.1 := fun h => hq h.symm
      simp only [List.find?_cons, hq, decide_False, getPath_applyEdit, hq2, if_false]

theorem identicalSnapshots_iff (a b : Snapshot) :
    identicalSnapshots a b = true ↔ ∀ q, getPath a q = getPath b q := by
  constructor
  · intro h q
    simp only [identicalSnapshots, Bool.and_eq_true, List.all_eq_true, decide_eq_true_eq] at h
    obtain ⟨ha, hb⟩ := h
    cases hqa : a.find? (fun kv => decide (kv.1 = q)) with
    | some kv =>
      have hmem := List.mem_of_find?_eq_some hqa
      have hkey := List.find?_some hqa
      simp only [decide_eq_true_eq] at hkey
      have := ha kv hmem
      rw [hkey] at this
      exact this.symm
    | none =>
      cases hqb : b.find? (fun kv => decide (kv.1 = q)) with
      | some kv =>
        have hmem := List.mem_of_find?_eq_some hqb
        have hkey := List.find?_some hqb
        simp only [decide_eq_true_eq] at hkey
        have := hb kv hmem
        rw [hkey] at this
        exact this
      | none => simp [getPath, hqa, hqb]
  · intro h
    simp [identicalSnapshots, h]

theorem mergeEdits_ok (s newSnapshot : Snapshot) (edits : List (JSString × Option JSString))
    (h : mergeEdits s edits = .ok newSnapshot) :
    (∀ e ∈ edits, isNormalizedPath e.1 = true) ∧ (edits.map Prod.fst).Nodup
      ∧ newSnapshot = edits.foldl applyEdit s := by
  unfold mergeEdits at h
  split at h
  · rename_i hv
    simp only [Bool.and_eq_true, List.all_eq_true, decide_eq_true_eq] at hv
    simp only [Except.ok.injEq] at h
    exact ⟨hv.1, hv.2, h.symm⟩
  · cases h

/-! ## The claims -/

/-- C1 as stated fails: `collidingDB` has no user and a repository `hello-world` of owner
id 1; `initDB` inserts the user `alex` with id 1, stops on `UNIQUE(owner_id, name)` and
creates neither a repository nor a commit. -/
theorem initDB_seeds_counterexample :
    collidingDB.users = []
      ∧ initDB toyPlatform "salt0" "2024-01-01T00:00:00.000Z" collidingDB
          = ({ collidingDB with
                users := [{ id := 1, username := "alex", email := "alex@example.com",
                            password_hash := "password123" }],
                seq_users := 1 },
             some (.uniqueConstraint "repos.owner_id, repos.name"))
      ∧ ¬ SeedsOneRepository collidingDB
            (initDB toyPlatform "salt0" "2024-01-01T00:00:00.000Z" collidingDB).1 := by
  refine ⟨rfl, by decide, ?_⟩
  intro h
  have hlen := (seedsOneRepository_length _ _ h).1
  revert hlen
  decide

/-- C1, amended: for every database state whose users table is empty, `initDB` creates
exactly one repository and exactly one commit referencing that repository, authored by the
repository's owner, whose stored snapshot is a mapping with exactly one path (`README.md`),
if and only if no sequence has reached the largest rowid, the ids of the new user and of the
new repository are JavaScript numbers as they stand, and no row of `repos` already pairs the
new user's id with the name `hello-world`; and then `initDB` ends without an exception. -/
theorem initDB_seeds_iff (P : Platform) (salt now : String) (db : DB)
    (husers : db.users = []) :
    (SeedsOneRepository db (initDB P salt now db).1 ↔ CanSeed db)
      ∧ (CanSeed db → (initDB P salt now db).2 = none) :=
  ⟨⟨canSeed_of_seedsOneRepository P salt now db husers,
      seedsOneRepository_of_canSeed P salt now db husers⟩,
    fun h => by rw [initDB_of_canSeed P salt now db husers h]⟩

/-- C1, amended, at a database without users that holds repositories of former users. -/
theorem initDB_seeds_iff_witness :
    staleDB.users = [] ∧ CanSeed staleDB
      ∧ SeedsOneRepository staleDB
          (initDB toyPlatform "salt0" "2024-01-01T00:00:00.000Z" staleDB).1 :=
  ⟨rfl, by unfold CanSeed; decide,
    (initDB_seeds_iff toyPlatform "salt0" "2024-01-01T00:00:00.000Z" staleDB rfl).1.mpr
      (by unfold CanSeed; decide)⟩

/-- C2: in every database reachable from the fresh one through `initDB` and the handlers of
`GET /`, login, register and logout, every row of `repos` has at least one row of `commits`
whose `repo_id` references it. -/
theorem reachable_every_repo_has_commit (P : Platform) (db : DB) (h : Reachable P db) :
    ∀ r ∈ db.repos, ∃ c ∈ db.commits, c.repo_id = r.id :=
  (reachable_seedInvariant P db h).2

/-- C2 at the seeded database, which is reachable and has a repository. -/
theorem reachable_every_repo_has_commit_witness :
    Reachable toyPlatform seededDB
      ∧ seededDB.repos ≠ []
      ∧ ∀ r ∈ seededDB.repos, ∃ c ∈ seededDB.commits, c.repo_id = r.id :=
  ⟨Reachable.step (.initDB "salt0" "2024-01-01T00:00:00.000Z") none Reachable.fresh,
    by decide,
    reachable_every_repo_has_commit toyPlatform seededDB
      (Reachable.step (.initDB "salt0" "2024-01-01T00:00:00.000Z") none Reachable.fresh)⟩

/-- C3: for every snapshot, a mapping from path to text whose paths are distinct,
deserializing the text `JSON.stringify` produces for it gives the snapshot back. -/
theorem parse_stringify_roundtrip (s : Snapshot) (hpaths : (s.map Prod.fst).Nodup) :
    JSON.parse (JSON.stringify s) = some s := by
  cases s with
  | nil => decide
  | cons m ms =>
    obtain ⟨t, ht⟩ := serializeMembers_head m ms
    have hlen := length_le_serializeMembers (m :: ms)
    have hparse := parseMembers_serialized (JSON.stringify (m :: ms)).length m ms [] []
      (by simp only [JSON.stringify, List.length_cons, List.length_append] at hlen ⊢; omega)
    rw [foldl_setProperty (m :: ms) [] hpaths (by simp)] at hparse
    simp only [JSON.parse, JSON.stringify, skipWs, isJSONWhiteSpace, expect] at hparse ⊢
    simp only [Nat.reduceEqDiff, decide_False, Bool.or_self, Bool.false_eq_true, if_false, if_true]
    rw [ht] at hparse ⊢
    simp only [List.cons_append, skipWs, isJSONWhiteSpace]
    simp only [Nat.reduceEqDiff, decide_False, Bool.or_self, Bool.false_eq_true, if_false, if_true]
    simp only [List.cons_append] at hparse
    simp only [List.append_eq]
    rw [hparse]
    simp [parseEnd, skipWs]

/-- C3 at a snapshot of two files whose contents need every kind of escape. -/
theorem parse_stringify_roundtrip_witness :
    (exampleSnapshot.map Prod.fst).Nodup
      ∧ JSON.parse (JSON.stringify exampleSnapshot) = some exampleSnapshot :=
  ⟨by decide, parse_stringify_roundtrip exampleSnapshot (by decide)⟩

/-- C4: in every database reachable from the fresh one through `initDB` and the route
handlers, no two distinct rows of `repos` have the same `(owner_id, name)` pair; and, from
any database whatever with that property, however many repositories it holds, every
operation leads to a database with that property. -/
theorem owner_name_unique_invariant (P : Platform) :
    (∀ db, Reachable P db →
        db.repos.Pairwise fun a b => ¬ (a.owner_id = b.owner_id ∧ a.name = b.name))
      ∧ (∀ (op : Op) (db : DB) (session : Session),
          (db.repos.Pairwise fun a b => ¬ (a.owner_id = b.owner_id ∧ a.name = b.name)) →
          (step P op db session).1.repos.Pairwise
            fun a b => ¬ (a.owner_id = b.owner_id ∧ a.name = b.name)) :=
  ⟨reachable_ownerNameUnique P, fun op db session h => ownerNameUnique_step P op db session h⟩

/-- C4 at a database with two repositories, to which `initDB` adds a third one, of an owner
who has a repository already. -/
theorem owner_name_unique_invariant_witness :
    (staleDB.repos.Pairwise fun a b => ¬ (a.owner_id = b.owner_id ∧ a.name = b.name))
      ∧ (step toyPlatform (.initDB "salt0" "2024-01-01T00:00:00.000Z") staleDB none).1.repos.map
            (fun r => (r.owner_id, r.name))
          = [(7, "other"), (1, "notes"), (1, "hello-world")]
      ∧ ((step toyPlatform (.initDB "salt0" "2024-01-01T00:00:00.000Z") staleDB
            none).1.repos.Pairwise
          fun a b => ¬ (a.owner_id = b.owner_id ∧ a.name = b.name)) :=
  ⟨by decide, by decide,
    (owner_name_unique_invariant toyPlatform).2 (.initDB "salt0" "2024-01-01T00:00:00.000Z")
      staleDB none (by decide)⟩

/-- C5: commit history is append-only: for every database, every session and every operation
of the program (`initDB`, `GET /`, `GET /login`, `POST /login`, `GET /register`,
`POST /register`, `POST /logout`), the `commits` table after the operation starts with the
table before it, so every commit row is still there with all its fields unchanged. -/
theorem step_commits_append_only (P : Platform) (op : Op) (db : DB) (session : Session) :
    db.commits <+: (step P op db session).1.commits
      ∧ ∀ c ∈ db.commits, c ∈ (step P op db session).1.commits := by
  obtain ⟨_, _, hc, _⟩ := step_frame P op db session
  exact ⟨hc, fun c hmem => hc.subset hmem⟩

/-- C6: for all texts `a` and `b` (contents without a null byte; empty texts and texts with no
common line included), the Equal and Insert runs of `diffLines a b`, concatenated in order,
are `b`, and its Equal and Delete runs, concatenated in order, are `a`. -/
theorem diffLines_reconstructs (a b : JSString) (ha : isBinary a = false)
    (hb : isBinary b = false) :
    keepEqualInsert (diffLines a b) = b ∧ keepEqualDelete (diffLines a b) = a := by
  simp only [diffLines, ha, hb, Bool.or_self, Bool.false_eq_true, if_false, keepEqualInsert,
    keepEqualDelete, keptNew_groupRuns_alignLines, keptOld_groupRuns_alignLines,
    flatten_splitLines, and_self]

/-- C6 at the two texts of the end-to-end example of section 8. -/
theorem diffLines_reconstructs_witness :
    isBinary (utf16 "# Hello\n") = false ∧ isBinary (utf16 "# Hello\nWorld\n") = false
      ∧ keepEqualInsert (diffLines (utf16 "# Hello\n") (utf16 "# Hello\nWorld\n"))
          = utf16 "# Hello\nWorld\n"
      ∧ keepEqualDelete (diffLines (utf16 "# Hello\n") (utf16 "# Hello\nWorld\n"))
          = utf16 "# Hello\n" :=
  ⟨by decide, by decide,
    diffLines_reconstructs (utf16 "# Hello\n") (utf16 "# Hello\nWorld\n") (by decide)
      (by decide)⟩

/-- C7: for every history of `N` commits and every base revision in `[1, N]`, `commit` fails
with `EmptyCommit` whenever merging the edits over the base snapshot yields a snapshot that
maps every path to what the base snapshot maps it to, and only then; and the snapshot the
merge yields maps a path to what its edit says, a tombstone meaning nothing, and to what the
base snapshot says if no edit names the path. -/
theorem commit_fails_with_EmptyCommit (history : History) (repository_id : Nat)
    (created_at : String) (baseRevision : Nat) (edits : List (JSString × Option JSString))
    (author : Nat) (message : String) (base : CoreCommit)
    (h1 : 1 ≤ baseRevision) (hN : baseRevision ≤ history.length)
    (hbase : history[baseRevision - 1]? = some base) :
    (commit history repository_id created_at baseRevision edits author message
        = .error .EmptyCommit
      ↔ ∃ newSnapshot, mergeEdits base.snapshot edits = .ok newSnapshot
          ∧ ∀ path, getPath newSnapshot path = getPath base.snapshot path)
      ∧ (∀ newSnapshot, mergeEdits base.snapshot edits = .ok newSnapshot →
          ∀ path, getPath newSnapshot path = mergedContent base.snapshot edits path) := by
  have hat := commitAt_of_getElem history baseRevision base h1 hN hbase
  constructor
  · constructor
    · intro hcommit
      simp only [commit, hat] at hcommit
      cases hmerge : mergeEdits base.snapshot edits with
      | error e =>
        rw [hmerge] at hcommit
        simp only [Except.error.injEq] at hcommit
        subst hcommit
        unfold mergeEdits at hmerge
        split at hmerge
        · cases hmerge
        · cases hmerge
      | ok newSnapshot =>
        rw [hmerge] at hcommit
        simp only at hcommit
        refine ⟨newSnapshot, rfl, ?_⟩
        apply (identicalSnapshots_iff _ _).mp
        by_contra hne
        simp only [hne, Bool.false_eq_true, if_false] at hcommit
        cases hcommit
    · rintro ⟨newSnapshot, hmerge, hsame⟩
      have hid := (identicalSnapshots_iff _ _).mpr hsame
      simp [commit, hat, hmerge, hid]
  · intro newSnapshot hmerge path
    obtain ⟨_, hd, hnew⟩ := mergeEdits_ok _ _ _ hmerge
    rw [hnew]
    exact getPath_foldl_applyEdit edits base.snapshot hd path

/-- C7 at the seed history: an edit that writes the content `README.md` has already, with a
tombstone for a path that is not there, is refused; an edit that adds a file is committed as
revision 2. -/
theorem commit_fails_with_EmptyCommit_witness :
    (1 ≤ 1 ∧ 1 ≤ seedHistory.length)
      ∧ seedHistory[1 - 1]? = some seedCommit
      ∧ commit seedHistory 1 "2024-01-02T00:00:00.000Z" 1
          [(utf16 "README.md", some (utf16 "# Hello CodeHub\n\nThis is a sample repository.\n")),
           (utf16 "LICENSE", none)]
          1 "No change" = .error .EmptyCommit
      ∧ (commit seedHistory 1 "2024-01-02T00:00:00.000Z" 1
          [(utf16 "LICENSE", some (utf16 "MIT"))] 1 "Add a licence").map (fun r => r.1.id)
          = .ok 2 :=
  ⟨by decide, by decide,
    (commit_fails_with_EmptyCommit seedHistory 1 "2024-01-02T00:00:00.000Z" 1
      [(utf16 "README.md", some (utf16 "# Hello CodeHub\n\nThis is a sample repository.\n")),
       (utf16 "LICENSE", none)]
      1 "No change" seedCommit (by decide) (by decide) (by decide)).1.mpr
      ⟨initialSnapshot, by rfl, fun _ => rfl⟩,
    by rfl⟩

/-- C8, at the failing request: on the seeded database, `POST /login` with the username
`alex` and no `password` field leaves the handler with the exception of
`bcrypt.compareSync`; the session is unchanged, and the login page with the error
`Invalid credentials` is not rendered. -/
theorem postLogin_missing_password_uncaught (P : Platform) (salt now : String)
    (session : Session) :
    postLogin P (initDB P salt now DB.empty).1 session
        { username := some "alex", password := none }
      = { db := (initDB P salt now DB.empty).1, session := session,
          response := .uncaught .bcryptArguments }
      ∧ (postLogin P (initDB P salt now DB.empty).1 session
          { username := some "alex", password := none }).response ≠ invalidCredentials := by
  rw [initDB_empty]
  simp [postLogin, selectUserByLogin, compareSyncField, invalidCredentials]

/-- C9 as stated fails: on a database where an earlier user has taken the address
`eve@example.com` as username, the registration of `eve` with the e-mail address
`eve@example.com` and the password `pw` inserts the user, and the login that follows with the
trimmed, lower-cased address and `pw` is refused, the session staying empty. -/
theorem register_then_login_counterexample :
    toyPlatform.Sound
    ∧ (postRegister toyPlatform "salt2" crowdedDB none
        { username := some "eve", email := some "eve@example.com", password := some "pw" })
      = { db := { crowdedDB with
                    users := crowdedDB.users ++
                      [{ id := 3, username := "eve", email := "eve@example.com",
                         password_hash := "pw" }],
                    seq_users := 3 },
          session := some { id := 3, username := "eve", email := "eve@example.com",
                            password_hash := "pw" },
          response := .redirect "/" }
    ∧ toyPlatform.toLowerCase (jsTrim "eve@example.com") = "eve@example.com"
    ∧ postLogin toyPlatform
          (postRegister toyPlatform "salt2" crowdedDB none
            { username := some "eve", email := some "eve@example.com",
              password := some "pw" }).db
          none { username := some "eve@example.com", password := some "pw" }
        = { db := (postRegister toyPlatform "salt2" crowdedDB none
                    { username := some "eve", email := some "eve@example.com",
                      password := some "pw" }).db,
            session := none, response := invalidCredentials } :=
  ⟨toyPlatform_sound, by decide⟩

/-- C9, amended: for every state and every `POST /register` with non-empty username `u`,
e-mail `e` and password `p` that succeeds in inserting a user, a following `POST /login`
that submits the trimmed username together with `p` succeeds and stores that newly
registered user in the session; one that submits the trimmed, lower-cased e-mail together
with `p` does so if and only if no other user has that e-mail address as username. -/
theorem register_then_login (P : Platform) (hP : P.Sound) (salt : String)
    (db db1 : DB) (session session1 : Session) (u e p : String) (last : Nat)
    (hu : u ≠ "") (he : e ≠ "") (hp : p ≠ "")
    (hins : insertUser db (jsTrim u) (P.toLowerCase (jsTrim e)) (P.hashSync p salt)
              = .ok (db1, last)) :
    ∃ newUser,
      db1.users = db.users ++ [newUser]
      ∧ newUser.username = jsTrim u
      ∧ newUser.email = P.toLowerCase (jsTrim e)
      ∧ newUser.password_hash = P.hashSync p salt
      ∧ (postRegister P salt db session
            { username := some u, email := some e, password := some p }).db = db1
      ∧ (postRegister P salt db session
            { username := some u, email := some e, password := some p }).response
          = .redirect "/"
      ∧ postLogin P db1 session1 { username := some (jsTrim u), password := some p }
          = { db := db1, session := some newUser, response := .redirect "/" }
      ∧ (postLogin P db1 session1
            { username := some (P.toLowerCase (jsTrim e)), password := some p }
          = { db := db1, session := some newUser, response := .redirect "/" }
          ↔ ∀ v ∈ db.users, v.username ≠ P.toLowerCase (jsTrim e)) := by
  obtain ⟨id, hnext, _, hdb1, huniq, heuniq⟩ := insertUser_ok _ _ _ _ _ _ hins
  obtain ⟨hid, _⟩ := nextId_ok _ _ _ hnext
  have hreg : postRegister P salt db session
        { username := some u, email := some e, password := some p }
      = { db := db1, session := selectUserById db1 last, response := .redirect "/" } := by
    simp only [postRegister, isFalsy, hu, he, hp, decide_False, Bool.or_self,
      Bool.false_eq_true, if_false, hins]
  have husers : db1.users = db.users ++
      [{ id := id, username := jsTrim u, email := P.toLowerCase (jsTrim e),
         password_hash := P.hashSync p salt }] := by rw [hdb1]
  refine ⟨{ id := id, username := jsTrim u, email := P.toLowerCase (jsTrim e),
            password_hash := P.hashSync p salt }, husers, rfl, rfl, rfl,
    by rw [hreg], by rw [hreg], ?_, ?_⟩
  · have hsel : selectUserByLogin db1 (some (jsTrim u))
        = some { id := id, username := jsTrim u, email := P.toLowerCase (jsTrim e),
                 password_hash := P.hashSync p salt } := by
      simp only [selectUserByLogin, husers]
      rw [find_append_singleton _ _ _ (fun v hv => by simpa using huniq v hv) (by simp)]
    simp only [postLogin, hsel, compareSyncField, hP p salt]
  · constructor
    · intro hlogin v hv hvname
      obtain ⟨y, hy, hpy, hfind⟩ := find_append_of_mem
        (fun w : User => decide (w.username = P.toLowerCase (jsTrim e))) db.users
        { id := id, username := jsTrim u, email := P.toLowerCase (jsTrim e),
          password_hash := P.hashSync p salt } v hv (by simpa using hvname)
      have hsel : selectUserByLogin db1 (some (P.toLowerCase (jsTrim e))) = some y := by
        simp only [selectUserByLogin, husers, hfind]
      have hyid : y.id < id := by
        have hle : y.id ≤ maxId (db.users.map (·.id)) :=
          le_maxId_of_mem _ _ (List.mem_map_of_mem (·.id) hy)
        rw [hid]
        have := le_max_right db.seq_users (maxId (db.users.map (·.id)))
        omega
      simp only [postLogin, hsel, compareSyncField] at hlogin
      cases hc : P.compareSync p y.password_hash with
      | false =>
        rw [hc] at hlogin
        simp [invalidCredentials] at hlogin
      | true =>
        rw [hc] at hlogin
        simp only [Outcome.mk.injEq, Option.some.injEq, and_true, true_and] at hlogin
        rw [hlogin] at hyid
        exact absurd hyid (lt_irrefl _)
    · intro hother
      have hsel : selectUserByLogin db1 (some (P.toLowerCase (jsTrim e)))
          = some { id := id, username := jsTrim u, email := P.toLowerCase (jsTrim e),
                   password_hash := P.hashSync p salt } := by
        simp only [selectUserByLogin, husers]
        by_cases hsame : jsTrim u = P.toLowerCase (jsTrim e)
        · rw [find_append_singleton _ _ _ (fun v hv => by simpa using hother v hv)
            (by simpa using hsame)]
        · rw [find_append_none _ _ _ (fun v hv => by simpa using hother v hv)
            (by simpa using hsame)]
          simp only
          rw [find_append_singleton _ _ _ (fun v hv => by simpa using heuniq v hv) (by simp)]
      simp only [postLogin, hsel, compareSyncField, hP p salt]

/-- C9, amended, at the seeded database: `Bob` registers and logs in, with the username and
with the e-mail address. -/
theorem register_then_login_witness :
    ∃ newUser,
      (postRegister toyPlatform "salt1" seededDB none
          { username := some "  Bob ", email := some " bob@example.com",
            password := some "pw" }).db.users = seededDB.users ++ [newUser]
      ∧ newUser.username = "Bob"
      ∧ postLogin toyPlatform
          (postRegister toyPlatform "salt1" seededDB none
            { username := some "  Bob ", email := some " bob@example.com",
              password := some "pw" }).db
          none { username := some "Bob", password := some "pw" }
        = { db := (postRegister toyPlatform "salt1" seededDB none
                    { username := some "  Bob ", email := some " bob@example.com",
                      password := some "pw" }).db,
            session := some newUser, response := .redirect "/" }
      ∧ postLogin toyPlatform
          (postRegister toyPlatform "salt1" seededDB none
            { username := some "  Bob ", email := some " bob@example.com",
              password := some "pw" }).db
          none { username := some "bob@example.com", password := some "pw" }
        = { db := (postRegister toyPlatform "salt1" seededDB none
                    { username := some "  Bob ", email := some " bob@example.com",
                      password := some "pw" }).db,
            session := some newUser, response := .redirect "/" } := by
  obtain ⟨newUser, h1, h2, _, _, _, _, h7, h8⟩ :=
    register_then_login toyPlatform toyPlatform_sound "salt1" seededDB
      (postRegister toyPlatform "salt1" seededDB none
        { username := some "  Bob ", email := some " bob@example.com",
          password := some "pw" }).db
      none none "  Bob " " bob@example.com" "pw" 2
      (by decide) (by decide) (by decide) (by rfl)
  exact ⟨newUser, h1, h2, h7, h8.mpr (by decide)⟩

/-- C10: `initDB` is idempotent on the database: for every state, a second run of `initDB`,
whatever salt and time it draws, leaves the database of the first run as it is, rows and
counters; on a state that has at least one user `initDB` ends without an exception and
leaves the database as it is; and unless the sequence of `users` has reached the largest
rowid, the second run ends without an exception. -/
theorem initDB_idempotent (P : Platform) (salt now salt2 now2 : String) (db : DB) :
    (initDB P salt2 now2 (initDB P salt now db).1).1 = (initDB P salt now db).1
      ∧ (db.users ≠ [] → initDB P salt now db = (db, none))
      ∧ (db.seq_users < maxRowid →
          initDB P salt2 now2 (initDB P salt now db).1 = ((initDB P salt now db).1, none)) := by
  have hnonempty : db.users ≠ [] ∨ db.seq_users < maxRowid →
      (initDB P salt now db).1.users ≠ [] := by
    intro hcase
    by_cases hu : db.users = []
    · have hseq : db.seq_users < maxRowid := by
        rcases hcase with h | h
        · exact absurd hu h
        · exact h
      simp only [initDB, hu, List.length_nil, if_true, insertUser_of_empty db _ _ _ hu hseq]
      split
      · simp
      · rename_i db2 last2 h2
        obtain ⟨_, _, _, hdb2, _, _⟩ := insertRepo_ok _ _ _ _ _ _ _ _ _ _ h2
        split
        · rw [hdb2]; simp
        · rename_i db3 last3 h3
          obtain ⟨_, _, _, hdb3, _, _⟩ := insertCommit_ok _ _ _ _ _ _ _ _ h3
          rw [hdb3, hdb2]; simp
    · rw [initDB_of_users P salt now db hu]; exact hu
  refine ⟨?_, initDB_of_users P salt now db, ?_⟩
  · by_cases hcase : db.users ≠ [] ∨ db.seq_users < maxRowid
    · rw [initDB_of_users P salt2 now2 _ (hnonempty hcase)]
    · simp only [not_or, not_not] at hcase
      obtain ⟨hu, hseq⟩ := hcase
      have hfirst : initDB P salt now db = (db, some .databaseFull) := by
        simp only [initDB, hu, List.length_nil, if_true,
          insertUser_of_empty_full db _ _ _ hu hseq]
      have hsecond : initDB P salt2 now2 db = (db, some .databaseFull) := by
        simp only [initDB, hu, List.length_nil, if_true,
          insertUser_of_empty_full db _ _ _ hu hseq]
      rw [hfirst, hsecond]
  · intro hseq
    exact initDB_of_users P salt2 now2 _ (hnonempty (Or.inr hseq))

/-- C10 at the seeded database, which has a user. -/
theorem initDB_idempotent_witness :
    seededDB.users ≠ []
      ∧ initDB toyPlatform "salt9" "2025-06-01T00:00:00.000Z" seededDB = (seededDB, none) :=
  ⟨by decide,
    (initDB_idempotent toyPlatform "salt9" "2025-06-01T00:00:00.000Z" "" "" seededDB).2.1
      (by decide)⟩

end CodeHub
